import Mathlib

/-!
A Lean 4 model of the plan-to-graph pipeline of `ppt/tf_wrapper.py`
(repository `TextCP`).  Python dictionaries are modelled as association
lists whose update function keeps insertion order (as CPython dicts do);
machine errors (`TypeError`, `ValueError`, `KeyError`, `IndexError`,
`SystemExit`) are modelled by the `PErr` type and fallible code returns
`Except PErr _`.  File input, JSON decoding and subprocess calls performed
by the surrounding glue are outside the model: every modelled function
starts from already-parsed values, exactly at the boundary where
`tf_wrapper.py` itself starts working on parsed dictionaries.
-/

/-- A JSON-ish attribute value, covering the shapes the modelled code paths
inspect: strings, integers and Python `None`. -/
inductive AVal where
  | s (v : String)
  | i (v : Int)
  | none
  deriving DecidableEq

/-- An attribute mapping (a Python dict from names to values), as an
insertion-ordered association list. -/
abbrev Attrs := List (String × AVal)

/-- The adjacency mapping `tfdata["graphdict"]`: node key to ordered list of
connected node keys, as an insertion-ordered association list. -/
abbrev Graphdict := List (String × List String)

/-- The keys of a dict, in insertion order. -/
def dictKeys (d : List (String × α)) : List String :=
  d.map Prod.fst

/-- Python `k in d`. -/
def dictMem (d : List (String × α)) (k : String) : Bool :=
  decide (k ∈ dictKeys d)

/-- Python `d.get(k)` / `d[k]` lookup (first matching entry; entries built by
`dictSet` have unique keys, as CPython dict keys do). -/
def dictGet : List (String × α) → String → Option α
  | [], _ => Option.none
  | p :: rest, k => if p.1 = k then some p.2 else dictGet rest k

/-- Python `d[k] = v`: overwrite in place when the key exists (keeping its
insertion position), append otherwise. -/
def dictSet (d : List (String × α)) (k : String) (v : α) : List (String × α) :=
  if dictMem d k then d.map (fun p => if p.1 = k then (k, v) else p)
  else d ++ [(k, v)]

/-- Python `d.update(e)`: fold the entries of `e` into `d`, later entries
winning on key collision. -/
def dictUpdate (d e : List (String × α)) : List (String × α) :=
  e.foldl (fun acc p => dictSet acc p.1 p.2) d

/-- Whether the first character list is a prefix of the second (a
kernel-reducible `startsWith` on character lists). -/
def isPrefixOfList : List Char → List Char → Bool
  | [], _ => true
  | _ :: _, [] => false
  | a :: as, b :: bs => a == b && isPrefixOfList as bs

/-- Python `s.startswith(pre)`. -/
def str_startsWith (s pre : String) : Bool :=
  isPrefixOfList pre.data s.data

/-- Whether `sep` occurs as a contiguous sublist. -/
def containsSub (sep : List Char) : List Char → Bool
  | [] => decide (sep = [])
  | x :: rest => isPrefixOfList sep (x :: rest) || containsSub sep rest

/-- Python `needle in s` substring test. -/
def strContains (s needle : String) : Bool :=
  containsSub needle.data s.data

/-- Split a character list on a single separator character (the semantics of
Python `str.split` with a one-character separator: `n` separators give
`n + 1` chunks). -/
def splitOnChar (c : Char) : List Char → List (List Char)
  | [] => [[]]
  | x :: rest =>
    let r := splitOnChar c rest
    if x == c then [] :: r
    else
      match r with
      | h :: t => (x :: h) :: t
      | [] => [[x]]

/-- Python `s.split(c)` for a one-character separator. -/
def py_split (c : Char) (s : String) : List String :=
  (splitOnChar c s.data).map String.mk

/-- Python `s.split(c)[0]` for a one-character separator: the part before
the first occurrence (the whole string when the separator is absent). -/
def py_split_head (s : String) (c : Char) : String :=
  String.mk (s.data.takeWhile (fun x => x ≠ c))

/-- The remainder after the first occurrence of `sep`, when it occurs. -/
def dropSub (sep : List Char) : List Char → Option (List Char)
  | [] => Option.none
  | x :: rest =>
    if isPrefixOfList sep (x :: rest) then some ((x :: rest).drop sep.length)
    else dropSub sep rest

/-- Everything before the first occurrence of `sep` (all of it when `sep`
does not occur). -/
def takeUntilSub (sep : List Char) : List Char → List Char
  | [] => []
  | x :: rest =>
    if isPrefixOfList sep (x :: rest) then [] else x :: takeUntilSub sep rest

/-- Python `s.split(sep)[1]` for a non-empty separator: the chunk between
the first occurrence of `sep` and the next one (absent when `sep` does not
occur — Python raises `IndexError` there). -/
def py_split_second (s sep : String) : Option String :=
  (dropSub sep.data s.data).map (fun r => String.mk (takeUntilSub sep.data r))

/-- The numeric value of a non-empty all-digit string (the happy path of
Python `int(s)`; the modelled inputs are plain decimal numerals). -/
def digitsToNat : List Char → Option Nat
  | [] => Option.none
  | l =>
    l.foldl
      (fun acc c =>
        match acc with
        | some n => if c.isDigit then some (n * 10 + (c.toNat - 48)) else Option.none
        | Option.none => Option.none)
      (some 0)

/-- Python `int(s)` on the decimal numerals the modelled code feeds it. -/
def py_toNat (s : String) : Option Nat :=
  digitsToNat s.data

/-- Python `str(x)` on an optional string (`str(None) = "None"`). -/
def pystr : Option String → String
  | some s => s
  | Option.none => "None"

/-- Python order-preserving de-duplication `list(dict.fromkeys(l))`. -/
def dedupFirst (l : List String) : List String :=
  l.foldl (fun acc x => if acc.contains x then acc else acc ++ [x]) []

/-- A modelled Python run-time error. -/
inductive PErr where
  | typeErr (msg : String)
  | valueErr (msg : String)
  | keyErr (msg : String)
  | indexErr (msg : String)
  | systemExit (code : Nat)
  deriving DecidableEq

/-- One `resource_changes` record, with the fields `setup_graph` reads.
`idx = Option.none` models a record with no `"index"` key at all, while
`idx = some AVal.none` models `"index": null` (the shape
`_plandata_from_state` emits for instances without an `index_key`). -/
structure RChange where
  address : Option String
  mode : String
  module_address : Option String
  idx : Option AVal
  after : Attrs
  after_unknown : Attrs
  after_sensitive : Attrs
  deriving DecidableEq

/-- One object of the low-level graph (`tfgraph["objects"]`): an integer id
`_gvid` and an optional `label`. -/
structure GObj where
  gvid : Nat
  label : Option String
  deriving DecidableEq

/-- One edge of the low-level graph (`tfgraph["edges"]`): integer object ids. -/
structure GEdge where
  head : Nat
  tail : Nat
  deriving DecidableEq

/-- The slice of the mutable `tfdata` dictionary that the modelled pipeline
stages read and write.  Bookkeeping keys that no modelled claim touches
(`workdir`, `codepath`, `all_variable`, `all_module`, `all_output`, `hidden`,
the annotation dict, `original_graphdict`, `original_metadata`) are omitted. -/
structure TfData where
  tf_resources_created : List RChange
  tfgraph_objects : List GObj
  tfgraph_edges : List GEdge
  graphdict : Graphdict
  meta_data : List (String × Attrs)
  node_list : List String
  deriving DecidableEq

/-- The node-key suffix of `setup_graph` lines 360-363: `"[" + index + "]"`
when the index is not an `int` (a `None` index therefore raises `TypeError`,
since `"[" + None` is ill-typed in Python), `"~" + str(int(index) + 1)` when
it is. -/
def node_suffix : AVal → Except PErr String
  | AVal.i n => .ok ("~" ++ toString (n + 1))
  | AVal.s k => .ok ("[" ++ k ++ "]")
  | AVal.none => .error (.typeErr "can only concatenate str (not NoneType) to str")

/-- The node-key construction of `setup_graph` lines 357-364:
`node = str(object["address"])`, plus the suffix when the record carries an
`"index"` key. -/
def node_key (address : Option String) (idx : Option AVal) : Except PErr String :=
  let node := pystr address
  match idx with
  | Option.none => .ok node
  | some v =>
    match node_suffix v with
    | .ok sfx => .ok (node ++ sfx)
    | .error e => .error e

/-- The metadata overlay of `setup_graph` lines 368-370: start from
`change.after`, then `update` with `change.after_unknown`, then with
`change.after_sensitive`. -/
def merge_attrs (after after_unknown after_sensitive : Attrs) : Attrs :=
  dictUpdate (dictUpdate after after_unknown) after_sensitive

/-- The per-record work of the `setup_graph` loop body (lines 353-374),
computed as a value: `Option.none` for a record that is skipped
(`mode != "managed"`), otherwise the node key together with its metadata.
The module name is `object["module_address"].split("module.")[1]` whenever
`"module." in object["address"]`. -/
def setup_entry (c : RChange) : Except PErr (Option (String × Attrs)) :=
  if c.mode = "managed" then
    match node_key c.address c.idx with
    | .error e => .error e
    | .ok node =>
      let details := merge_attrs c.after c.after_unknown c.after_sensitive
      match c.address with
      | Option.none => .error (.typeErr "argument of type NoneType is not iterable")
      | some a =>
        if strContains a "module." then
          match c.module_address with
          | Option.none => .error (.typeErr "NoneType object has no attribute split")
          | some ma =>
            match py_split_second ma "module." with
            | Option.none => .error (.indexErr "list index out of range")
            | some modname => .ok (some (node, dictSet details "module" (AVal.s modname)))
        else .ok (some (node, details))
  else .ok Option.none

/-- One iteration of the `setup_graph` loop: record the node key with an
empty connection list, append it to `node_list`, and store its metadata. -/
def setup_node (td : TfData) (c : RChange) : Except PErr TfData :=
  match setup_entry c with
  | .error e => .error e
  | .ok Option.none => .ok td
  | .ok (some (node, details)) =>
    .ok { td with
      graphdict := dictSet td.graphdict node ([] : List String)
      node_list := td.node_list ++ [node]
      meta_data := dictSet td.meta_data node details }

/-- The `for object in tfdata["tf_resources_created"]` loop of `setup_graph`. -/
def setup_loop (td : TfData) : List RChange → Except PErr TfData
  | [] => .ok td
  | c :: rest =>
    match setup_node td c with
    | .ok td2 => setup_loop td2 rest
    | .error e => .error e

/-- `setup_graph` (lines 345-376): reset the graph structures, build a node
per managed resource change, then order-preservingly de-duplicate
`node_list`. -/
def setup_graph (td : TfData) : Except PErr TfData :=
  let td0 := { td with graphdict := [], meta_data := [], node_list := [] }
  match setup_loop td0 td.tf_resources_created with
  | .ok td1 => .ok { td1 with node_list := dedupFirst td1.node_list }
  | .error e => .error e

/-- The node keys contributed by a resource-change list: one key per managed
record whose key construction succeeds, in input order, duplicates kept. -/
def managed_keys (l : List RChange) : List String :=
  l.filterMap (fun c =>
    if c.mode = "managed" then (node_key c.address c.idx).toOption else Option.none)

/-- Modelled from the spec: `helpers.remove_brackets_and_numbers` lives in
`modules/helpers.py`, which is not part of this repository snapshot.  Per
spec §4.2 step 2 it is a normalization pass that removes bracket/number
decorations from a label; modelled as dropping every bracket and digit
character. -/
def remove_brackets_and_numbers (s : String) : String :=
  String.mk (s.data.filter (fun c => ¬(c = '[' ∨ c = ']' ∨ c.isDigit)))

/-- Modelled from the spec: `helpers.get_no_module_name` lives in
`modules/helpers.py`, which is not part of this repository snapshot.  Per
spec §3/§4.1, node keys may carry `module.<name>.` qualifiers; this strips
them, and is the identity on an unqualified key. -/
def strip_module_segs : List String → List String
  | "module" :: _ :: rest => strip_module_segs rest
  | l => l

/-- Modelled from the spec: the unqualified resource address of a possibly
module-qualified node key (see `strip_module_segs`). -/
def joinWithDot : List String → String
  | [] => ""
  | [x] => x
  | x :: rest => x ++ "." ++ joinWithDot rest

/-- Modelled from the spec: the unqualified resource address of a possibly
module-qualified node key (see `strip_module_segs`). -/
def get_no_module_name (s : String) : String :=
  joinWithDot (strip_module_segs (py_split '.' s))

/-- Modelled from the spec: `helpers.list_of_dictkeys_containing` lives in
`modules/helpers.py`, which is not part of this repository snapshot.  Per
its name and spec §4.4 it returns the dict keys containing the given
substring. -/
def list_of_dictkeys_containing (d : Graphdict) (needle : String) : List String :=
  (dictKeys d).filter (fun k => strContains k needle)

/-- Python `d[k].append(v)` on the adjacency mapping: `KeyError` when the
key is absent. -/
def dict_append (gd : Graphdict) (k v : String) : Except PErr Graphdict :=
  if dictMem gd k then
    .ok (gd.map (fun p => if p.1 = k then (p.1, p.2 ++ [v]) else p))
  else .error (.keyErr k)

/-- The gvid lookup-table construction of `tf_makegraph` lines 383-387:
append `""` then assign at position `_gvid` (an `IndexError` when the id is
not a dense index), storing `str(item.get("label"))`. -/
def build_gvid_loop (tbl : List String) : List GObj → Except PErr (List String)
  | [] => .ok tbl
  | o :: rest =>
    let tbl2 := tbl ++ [""]
    if o.gvid < tbl2.length then build_gvid_loop (tbl2.set o.gvid (pystr o.label)) rest
    else .error (.indexErr "list assignment index out of range")

/-- The per-node id lookup of `tf_makegraph` lines 390-395: strip the `~`
count suffix, look the base up in the gvid table, and on a miss retry after
`remove_brackets_and_numbers`; a second miss is Python
`list.index`'s `ValueError` naming the looked-up label. -/
def lookup_node_id (gvt : List String) (node : String) : Except PErr Nat :=
  let nodename := py_split_head node '~'
  match gvt.findIdx? (fun s => s == nodename) with
  | some i => .ok i
  | Option.none =>
    let nodename2 := remove_brackets_and_numbers nodename
    match gvt.findIdx? (fun s => s == nodename2) with
    | some i => .ok i
    | Option.none => .error (.valueErr (nodename2 ++ " is not in list"))

/-- The head-substitution step of `tf_makegraph` line 421: when the loop
variable `node` is not itself a graphdict key but exactly one key starts
with the head label, substitute that single match. -/
def pick_node (gd : Graphdict) (node : String) (matched_nodes : List String) : String :=
  if dictMem gd node = false ∧ matched_nodes.length = 1 then
    matched_nodes.headD node
  else node

/-- The tail-substitution step of `tf_makegraph` lines 423-427: when the raw
tail label is not itself a graphdict key but exactly one key starts with it,
substitute that single match; otherwise the raw label is kept. -/
def pick_conn (gd : Graphdict) (tl : String) (matched_connections : List String) : String :=
  if dictMem gd tl = false ∧ matched_connections.length = 1 then
    matched_connections.headD tl
  else tl

/-- One `for connection in tfdata["tfgraph"]["edges"]` iteration of
`tf_makegraph` (lines 397-433), acting on the current adjacency mapping and
the current (reassignable) `node` variable.  The guard requires
`node_id == head` and at least one graphdict key starting with the tail
label; `node` and `conn` are replaced by their unique prefix match via
`pick_node`/`pick_conn`; resource types in `REV` flip the insertion
direction, first creating the target key when absent. -/
def conn_step (REV gvt : List String) (node_id : Nat) (gd : Graphdict)
    (node : String) (c : GEdge) : Except PErr (Graphdict × String) :=
  if node_id = c.head then
    match gvt.get? c.tail with
    | Option.none => .error (.indexErr "list index out of range")
    | some tl =>
      let matched_connections := (dictKeys gd).filter (fun k => str_startsWith k tl)
      if 0 < matched_connections.length then
        let conn_type := py_split_head tl '.'
        let matched_nodes := (dictKeys gd).filter (fun k => str_startsWith k (gvt.getD c.head ""))
        let node2 := pick_node gd node matched_nodes
        let conn := pick_conn gd tl matched_connections
        if REV.contains conn_type then
          match dict_append (if dictMem gd conn = false then gd ++ [(conn, [])] else gd)
              conn node2 with
          | .ok gd3 => .ok (gd3, node2)
          | .error e => .error e
        else
          match dict_append gd node2 conn with
          | .ok gd3 => .ok (gd3, node2)
          | .error e => .error e
      else .ok (gd, node)
  else .ok (gd, node)

/-- The edge loop of `tf_makegraph` for one semantic node, threading the
adjacency mapping and the reassignable `node` variable through every
low-level edge. -/
def conn_loop (REV gvt : List String) (node_id : Nat) (gd : Graphdict)
    (node : String) : List GEdge → Except PErr (Graphdict × String)
  | [] => .ok (gd, node)
  | c :: rest =>
    match conn_step REV gvt node_id gd node c with
    | .ok (gd2, node2) => conn_loop REV gvt node_id gd2 node2 rest
    | .error e => .error e

/-- The outer `for node in dict(tfdata["graphdict"])` loop of `tf_makegraph`
(lines 389-433), over the snapshot of the node keys.  The id lookup happens
before the `edges` truthiness test, so it can fail even when there are no
edges. -/
def node_loop (REV gvt : List String) (edges : List GEdge) (gd : Graphdict) :
    List String → Except PErr Graphdict
  | [] => .ok gd
  | node :: rest =>
    match lookup_node_id gvt node with
    | .error e => .error e
    | .ok node_id =>
      if edges.isEmpty then node_loop REV gvt edges gd rest
      else
        match conn_loop REV gvt node_id gd node edges with
        | .ok (gd2, _) => node_loop REV gvt edges gd2 rest
        | .error e => .error e

/-- The Edge Resolver stage of `tf_makegraph` (lines 382-433): build the
gvid table, then run the node loop over the snapshot of graphdict keys.
`REV` models `cloud_config.AWS_REVERSE_ARROW_LIST` (module
`modules/cloud_config.py` is not part of this repository snapshot; per spec
§4.2 it is a caller-supplied configuration set of resource types, so it is
a parameter here). -/
def resolve_edges_stage (REV : List String) (td : TfData) : Except PErr TfData :=
  match build_gvid_loop [] td.tfgraph_objects with
  | .error e => .error e
  | .ok gvt =>
    match node_loop REV gvt td.tfgraph_edges td.graphdict (dictKeys td.graphdict) with
    | .ok gd => .ok { td with graphdict := gd }
    | .error e => .error e

/-- An IPv4 network as the inclusive range of its addresses (the `network`
and `broadcast` addresses of `ipaddr.IPNetwork`). -/
structure IPNet where
  net : Nat
  brd : Nat
  deriving DecidableEq

/-- Parse a dotted-quad IPv4 address into its 32-bit numeric value. -/
def parse_ip (s : String) : Option Nat :=
  match (py_split '.' s).mapM py_toNat with
  | some [a, b, c, d] =>
    if a < 256 ∧ b < 256 ∧ c < 256 ∧ d < 256 then
      some (((a * 256 + b) * 256 + c) * 256 + d)
    else Option.none
  | _ => Option.none

/-- `ipaddr.IPNetwork` on a CIDR string: host bits are allowed and masked
away (the library's non-strict default), a bare address is a `/32`. -/
def parse_cidr (s : String) : Option IPNet :=
  match py_split '/' s with
  | [ip, p] =>
    match parse_ip ip, py_toNat p with
    | some ipn, some pn =>
      if pn ≤ 32 then
        let block := 2 ^ (32 - pn)
        let net := ipn / block * block
        some ⟨net, net + block - 1⟩
      else Option.none
    | _, _ => Option.none
  | [ip] => (parse_ip ip).map (fun n => ⟨n, n⟩)
  | _ => Option.none

/-- `ipaddr.IPNetwork.overlaps`: the address ranges intersect. -/
def ip_overlaps (a b : IPNet) : Bool :=
  decide (a.net ≤ b.brd ∧ b.net ≤ a.brd)

/-- `ipaddr.IPNetwork(tfdata["meta_data"][k]["cidr_block"])`: a `KeyError`
when the node or the attribute is missing, a parse error when the value is
not a valid CIDR (an integer value is the library's numeric-address form). -/
def get_cidr (td : TfData) (k : String) : Except PErr IPNet :=
  match dictGet td.meta_data k with
  | Option.none => .error (.keyErr k)
  | some attrs =>
    match dictGet attrs "cidr_block" with
    | Option.none => .error (.keyErr "cidr_block")
    | some (AVal.s c) =>
      match parse_cidr c with
      | some n => .ok n
      | Option.none => .error (.valueErr c)
    | some (AVal.i n) =>
      if n < 4294967296 ∧ 0 ≤ n then .ok ⟨n.toNat, n.toNat⟩
      else .error (.valueErr (toString n))
    | some AVal.none => .error (.valueErr "None")

/-- The keys of the adjacency mapping whose unqualified name starts with
`aws_vpc.` (`add_vpc_implied_relations` lines 452-456). -/
def vpc_resources (td : TfData) : List String :=
  (dictKeys td.graphdict).filter (fun k => str_startsWith (get_no_module_name k) "aws_vpc.")

/-- The keys of the adjacency mapping whose unqualified name starts with
`aws_subnet.` (`add_vpc_implied_relations` lines 457-461). -/
def subnet_resources (td : TfData) : List String :=
  (dictKeys td.graphdict).filter (fun k => str_startsWith (get_no_module_name k) "aws_subnet.")

/-- The inner `for subnet in subnet_resources` loop of
`add_vpc_implied_relations`: append the subnet to the vpc's connection list
whenever the CIDR ranges overlap. -/
def subnet_loop (td : TfData) (vpc : String) (vcidr : IPNet) :
    List String → Except PErr TfData
  | [] => .ok td
  | s :: rest =>
    match get_cidr td s with
    | .error e => .error e
    | .ok scidr =>
      if ip_overlaps scidr vcidr then
        match dict_append td.graphdict vpc s with
        | .ok gd => subnet_loop { td with graphdict := gd } vpc vcidr rest
        | .error e => .error e
      else subnet_loop td vpc vcidr rest

/-- The outer `for vpc in vpc_resources` loop of
`add_vpc_implied_relations`. -/
def vpc_loop (td : TfData) (subnets : List String) :
    List String → Except PErr TfData
  | [] => .ok td
  | v :: rest =>
    match get_cidr td v with
    | .error e => .error e
    | .ok vcidr =>
      match subnet_loop td v vcidr subnets with
      | .ok td2 => vpc_loop td2 subnets rest
      | .error e => .error e

/-- `add_vpc_implied_relations` (lines 451-471): when both vpc and subnet
resources exist, add an implied `vpc -> subnet` edge for every pair with
overlapping CIDR ranges. -/
def add_vpc_implied_relations (td : TfData) : Except PErr TfData :=
  let vpcs := vpc_resources td
  let subnets := subnet_resources td
  if 0 < vpcs.length ∧ 0 < subnets.length then vpc_loop td subnets vpcs
  else .ok td

/-- The provider check closing `tf_makegraph` (lines 438-446): when no
graphdict key contains `"aws_"`, print an error and call the bare `exit()`
builtin, which raises `SystemExit(None)` and terminates the process with
status 0. -/
def validate_domain (td : TfData) : Except PErr TfData :=
  if (list_of_dictkeys_containing td.graphdict "aws_").length = 0 then
    .error (.systemExit 0)
  else .ok td

/-- `tf_makegraph` up to but excluding the provider check: node building,
edge resolution, implied vpc/subnet relations. -/
def tf_makegraph_pre (REV : List String) (td : TfData) : Except PErr TfData :=
  match setup_graph td with
  | .error e => .error e
  | .ok td1 =>
    match resolve_edges_stage REV td1 with
    | .error e => .error e
    | .ok td2 => add_vpc_implied_relations td2

/-- `tf_makegraph` (lines 379-447): the full graph construction pipeline of
the wrapper, ending in the provider check. -/
def tf_makegraph (REV : List String) (td : TfData) : Except PErr TfData :=
  match tf_makegraph_pre REV td with
  | .ok td2 => validate_domain td2
  | .error e => .error e

/-- One instance of a state-file resource (`instances[j]` in
`_plandata_from_state`): `index_key = AVal.none` models both an absent and a
null `index_key`, since the code reads it with `inst.get("index_key")`. -/
structure SInstance where
  index_key : AVal
  attributes : Attrs
  deriving DecidableEq

/-- One resource of a parsed state file, with the fields
`_plandata_from_state` reads. -/
structure SResource where
  mode : Option String
  moduleName : Option String
  address : Option String
  instances : Option (List SInstance)
  deriving DecidableEq

/-- Python `r.get("instances") or [{}]`: a missing or empty instance list
becomes one empty instance. -/
def res_instances (r : SResource) : List SInstance :=
  match r.instances with
  | some (x :: xs) => x :: xs
  | _ => [⟨AVal.none, []⟩]

/-- The resource-change record `_plandata_from_state` builds for one state
instance (lines 45-63): a managed-by-default no-op change whose `index` key
is always present (null when the instance has no `index_key`) and whose
`after` is the instance's attributes, with empty unknown/sensitive overlays. -/
def mk_change (r : SResource) (inst : SInstance) : RChange :=
  { address := r.address
    mode := r.mode.getD "managed"
    module_address := (r.moduleName.filter (fun m => m ≠ "")).map (fun m => "module." ++ m)
    idx := some inst.index_key
    after := inst.attributes
    after_unknown := []
    after_sensitive := [] }

/-- `_plandata_from_state` (lines 42-64): flatten every resource's instances
into pseudo resource-change records. -/
def _plandata_from_state (resources : List SResource) : List RChange :=
  resources.flatMap (fun r => (res_instances r).map (mk_change r))

/-- `_plandata_from_plan` (lines 36-40): pass the `resource_changes` list
through, or `raise SystemExit(1)` when the parsed plan JSON has no such key
(`Option.none` models the missing key). -/
def _plandata_from_plan (plan : Option (List RChange)) : Except PErr (List RChange) :=
  match plan with
  | some l => .ok l
  | Option.none => .error (.systemExit 1)

/-- `make_tf_data` (lines 328-342) on parsed data: store the resource
changes (a falsy — empty or missing — list is an error exiting via the bare
`exit()` builtin, process status 0) and the low-level graph. -/
def make_tf_data (changes : List RChange) (objects : List GObj) (edges : List GEdge) :
    Except PErr TfData :=
  if changes ≠ [] then
    .ok { tf_resources_created := changes
          tfgraph_objects := objects
          tfgraph_edges := edges
          graphdict := []
          meta_data := []
          node_list := [] }
  else .error (.systemExit 0)

/-- `tf_from_offline` (lines 66-91) on parsed inputs (file reading and JSON
decoding are the excluded loader's work; `plan = some pj` models a provided
`--planfile` whose parsed JSON is `pj`, `state` a provided `--statefile`).
It seeds `tfdata` with an empty low-level graph and returns right after
`setup_graph`: neither the edge-resolution loop of `tf_makegraph` nor
`add_vpc_implied_relations` is invoked on this path. -/
def tf_from_offline (plan : Option (Option (List RChange)))
    (state : Option (List SResource)) : Except PErr TfData :=
  match plan, state with
  | Option.none, Option.none => .error (.systemExit 1)
  | some pj, _ =>
    match _plandata_from_plan pj with
    | .error e => .error e
    | .ok plandata =>
      match make_tf_data plandata [] [] with
      | .error e => .error e
      | .ok td => setup_graph td
  | Option.none, some res =>
    match make_tf_data (_plandata_from_state res) [] [] with
    | .error e => .error e
    | .ok td => setup_graph td

deriving instance DecidableEq for Except

/-- The final-state residue of the guarded edge insertion: an edge target is
either a node key, or a (raw) label that at least two node keys extend —
the shape the ambiguous branch of `tf_makegraph` leaves behind. -/
def edge_target_resolved (gd : Graphdict) (e : String) : Prop :=
  dictMem gd e = true ∨ 2 ≤ ((dictKeys gd).filter (fun k => str_startsWith k e)).length

/-- Every edge target of the adjacency mapping is resolved in the sense of
`edge_target_resolved`. -/
def graph_edges_resolved (gd : Graphdict) : Prop :=
  ∀ p ∈ gd, ∀ e ∈ p.2, edge_target_resolved gd e

/-- The key list of `gd2` extends the key list of `gd` on the right (node
keys are only ever appended by the pipeline, never removed or reordered). -/
def keysExt (gd gd2 : Graphdict) : Prop :=
  ∃ t, dictKeys gd2 = dictKeys gd ++ t

/-- Every connection list of `gd` survives as a prefix of the corresponding
list of `gd2`: no existing edge is removed. -/
def gdExtends (gd gd2 : Graphdict) : Prop :=
  ∀ k vs, dictGet gd k = some vs → ∃ ex, dictGet gd2 k = some (vs ++ ex)

/-- Concrete run for C1: one plain instance plus a two-instance (`count`)
address, and a low-level edge pointing at the shared base label. -/
def c1td : TfData :=
  { tf_resources_created :=
      [ { address := some "aws_instance.web", mode := "managed", module_address := Option.none,
          idx := Option.none, after := [], after_unknown := [], after_sensitive := [] }
      , { address := some "aws_eip.ip", mode := "managed", module_address := Option.none,
          idx := some (AVal.i 0), after := [], after_unknown := [], after_sensitive := [] }
      , { address := some "aws_eip.ip", mode := "managed", module_address := Option.none,
          idx := some (AVal.i 1), after := [], after_unknown := [], after_sensitive := [] } ]
    tfgraph_objects := [⟨0, some "aws_instance.web"⟩, ⟨1, some "aws_eip.ip"⟩]
    tfgraph_edges := [⟨0, 1⟩]
    graphdict := [], meta_data := [], node_list := [] }

/-- Concrete run for the C1 witness: a single-instance edge that resolves
exactly. -/
def w1td : TfData :=
  { tf_resources_created :=
      [ { address := some "aws_instance.srv", mode := "managed", module_address := Option.none,
          idx := Option.none, after := [], after_unknown := [], after_sensitive := [] }
      , { address := some "aws_eip.one", mode := "managed", module_address := Option.none,
          idx := Option.none, after := [], after_unknown := [], after_sensitive := [] } ]
    tfgraph_objects := [⟨0, some "aws_instance.srv"⟩, ⟨1, some "aws_eip.one"⟩]
    tfgraph_edges := [⟨0, 1⟩]
    graphdict := [], meta_data := [], node_list := [] }

/-- The output of `tf_makegraph [] w1td`. -/
def w1out : TfData :=
  { w1td with
    graphdict := [("aws_instance.srv", ["aws_eip.one"]), ("aws_eip.one", [])]
    meta_data := [("aws_instance.srv", []), ("aws_eip.one", [])]
    node_list := ["aws_instance.srv", "aws_eip.one"] }

/-- Concrete run for C2: an ambiguous tail label (`aws_instance.app` has two
count instances) reached from a load balancer node. -/
def c2td : TfData :=
  { tf_resources_created :=
      [ { address := some "aws_lb.web", mode := "managed", module_address := Option.none,
          idx := Option.none, after := [], after_unknown := [], after_sensitive := [] }
      , { address := some "aws_instance.app", mode := "managed", module_address := Option.none,
          idx := some (AVal.i 0), after := [], after_unknown := [], after_sensitive := [] }
      , { address := some "aws_instance.app", mode := "managed", module_address := Option.none,
          idx := some (AVal.i 1), after := [], after_unknown := [], after_sensitive := [] } ]
    tfgraph_objects := [⟨0, some "aws_lb.web"⟩, ⟨1, some "aws_instance.app"⟩]
    tfgraph_edges := [⟨0, 1⟩]
    graphdict := [], meta_data := [], node_list := [] }

/-- Offline-path resource changes for C3: a vpc and a subnet with
overlapping CIDR blocks. -/
def c3changes : List RChange :=
  [ { address := some "aws_vpc.main", mode := "managed", module_address := Option.none,
      idx := Option.none, after := [("cidr_block", AVal.s "10.0.0.0/16")],
      after_unknown := [], after_sensitive := [] }
  , { address := some "aws_subnet.a", mode := "managed", module_address := Option.none,
      idx := Option.none, after := [("cidr_block", AVal.s "10.0.1.0/24")],
      after_unknown := [], after_sensitive := [] } ]

/-- The output of `tf_from_offline` on `c3changes`. -/
def c3out : TfData :=
  { tf_resources_created := c3changes
    tfgraph_objects := [], tfgraph_edges := []
    graphdict := [("aws_vpc.main", []), ("aws_subnet.a", [])]
    meta_data := [("aws_vpc.main", [("cidr_block", AVal.s "10.0.0.0/16")]),
                  ("aws_subnet.a", [("cidr_block", AVal.s "10.0.1.0/24")])]
    node_list := ["aws_vpc.main", "aws_subnet.a"] }

/-- Offline-path resource changes for the C3 witness. -/
def w3changes : List RChange :=
  [ { address := some "aws_instance.w3", mode := "managed", module_address := Option.none,
      idx := Option.none, after := [], after_unknown := [], after_sensitive := [] } ]

/-- The output of `tf_from_offline` on `w3changes`. -/
def w3out : TfData :=
  { tf_resources_created := w3changes
    tfgraph_objects := [], tfgraph_edges := []
    graphdict := [("aws_instance.w3", [])]
    meta_data := [("aws_instance.w3", [])]
    node_list := ["aws_instance.w3"] }

/-- Concrete run for C4: a plan whose only resource belongs to an
unsupported provider prefix. -/
def c4td : TfData :=
  { tf_resources_created :=
      [ { address := some "google_compute.x", mode := "managed", module_address := Option.none,
          idx := Option.none, after := [], after_unknown := [], after_sensitive := [] } ]
    tfgraph_objects := [⟨0, some "google_compute.x"⟩]
    tfgraph_edges := []
    graphdict := [], meta_data := [], node_list := [] }

/-- Concrete run for the C4 witness: a supported (aws) resource. -/
def w4td : TfData :=
  { tf_resources_created :=
      [ { address := some "aws_instance.a", mode := "managed", module_address := Option.none,
          idx := Option.none, after := [], after_unknown := [], after_sensitive := [] } ]
    tfgraph_objects := [⟨0, some "aws_instance.a"⟩]
    tfgraph_edges := []
    graphdict := [], meta_data := [], node_list := [] }

/-- The output of `tf_makegraph_pre [] w4td`. -/
def w4out : TfData :=
  { w4td with
    graphdict := [("aws_instance.a", [])]
    meta_data := [("aws_instance.a", [])]
    node_list := ["aws_instance.a"] }

/-- State-file resources for C6: one managed resource whose single instance
has no `index_key`. -/
def c6res : List SResource :=
  [ { mode := Option.none, moduleName := Option.none, address := some "aws_s3_bucket.b",
      instances := some [⟨AVal.none, [("bucket", AVal.s "b")]⟩] } ]

/-- Concrete run for C7: a count-suffixed node key whose base label is
absent from the (empty) low-level label table. -/
def c7td : TfData :=
  { tf_resources_created :=
      [ { address := some "aws_db.x", mode := "managed", module_address := Option.none,
          idx := some (AVal.i 0), after := [], after_unknown := [], after_sensitive := [] } ]
    tfgraph_objects := []
    tfgraph_edges := []
    graphdict := [], meta_data := [], node_list := [] }

/-- Concrete adjacency state for C8: one vpc, one overlapping subnet, one
non-overlapping subnet. -/
def exTd8 : TfData :=
  { tf_resources_created := []
    tfgraph_objects := [], tfgraph_edges := []
    graphdict := [("aws_vpc.main", []), ("aws_subnet.a", []), ("aws_subnet.b", [])]
    meta_data := [("aws_vpc.main", [("cidr_block", AVal.s "10.0.0.0/16")]),
                  ("aws_subnet.a", [("cidr_block", AVal.s "10.0.1.0/24")]),
                  ("aws_subnet.b", [("cidr_block", AVal.s "192.168.0.0/24")])]
    node_list := [] }

/-- The output of `add_vpc_implied_relations exTd8`. -/
def exTd8r : TfData :=
  { exTd8 with
    graphdict := [("aws_vpc.main", ["aws_subnet.a"]), ("aws_subnet.a", []), ("aws_subnet.b", [])] }

/-- Resource changes for the C9 witness: a duplicated managed address and a
data record. -/
def w9changes : List RChange :=
  [ { address := some "aws_iam_role.r", mode := "managed", module_address := Option.none,
      idx := Option.none, after := [], after_unknown := [], after_sensitive := [] }
  , { address := some "aws_iam_role.r", mode := "managed", module_address := Option.none,
      idx := Option.none, after := [], after_unknown := [], after_sensitive := [] }
  , { address := some "aws_ami.lookup", mode := "data", module_address := Option.none,
      idx := Option.none, after := [], after_unknown := [], after_sensitive := [] } ]

/-- The order-preserving de-duplicating accumulator underlying `dedupFirst`,
started from an arbitrary prefix (`dedupFirst l = dedupInto [] l`). -/
def dedupInto (acc l : List String) : List String :=
  l.foldl (fun a x => if a.contains x then a else a ++ [x]) acc

/-- Whether the `setup_graph` loop body succeeds on a record (it depends on
the record only, not on the accumulated state). -/
def entry_ok (c : RChange) : Bool :=
  match setup_entry c with
  | .ok _ => true
  | .error _ => false

/-- A base `tfdata` value for the C9 witness run. -/
def w9base : TfData :=
  { tf_resources_created := w9changes, tfgraph_objects := [], tfgraph_edges := [],
    graphdict := [], meta_data := [], node_list := [] }

/-- The output of `tf_makegraph [] c1td`. -/
def c1out : TfData :=
  { c1td with
    graphdict := [("aws_instance.web", ["aws_eip.ip"]), ("aws_eip.ip~1", []),
      ("aws_eip.ip~2", [])]
    meta_data := [("aws_instance.web", []), ("aws_eip.ip~1", []), ("aws_eip.ip~2", [])]
    node_list := ["aws_instance.web", "aws_eip.ip~1", "aws_eip.ip~2"] }

/-- The output of `tf_makegraph [] c2td`. -/
def c2out : TfData :=
  { c2td with
    graphdict := [("aws_lb.web", ["aws_instance.app"]), ("aws_instance.app~1", []),
      ("aws_instance.app~2", [])]
    meta_data := [("aws_lb.web", []), ("aws_instance.app~1", []), ("aws_instance.app~2", [])]
    node_list := ["aws_lb.web", "aws_instance.app~1", "aws_instance.app~2"] }

theorem dictKeys_nil : dictKeys ([] : List (String × α)) = [] := rfl

theorem dictKeys_cons (p : String × α) (rest : List (String × α)) :
    dictKeys (p :: rest) = p.1 :: dictKeys rest := rfl

theorem dictKeys_append (d e : List (String × α)) :
    dictKeys (d ++ e) = dictKeys d ++ dictKeys e := by
  simp [dictKeys]

theorem dictMem_iff (d : List (String × α)) (k : String) :
    dictMem d k = true ↔ k ∈ dictKeys d := by
  simp [dictMem]

theorem dictMem_false_iff (d : List (String × α)) (k : String) :
    dictMem d k = false ↔ k ∉ dictKeys d := by
  simp [dictMem]

theorem dictGet_eq_none_of_not_mem {d : List (String × α)} {k : String}
    (h : k ∉ dictKeys d) : dictGet d k = Option.none := by
  induction d with
  | nil => rfl
  | cons p rest ih =>
    rw [dictKeys_cons] at h
    simp only [List.mem_cons, not_or] at h
    have hp : ¬p.1 = k := fun hh => h.1 hh.symm
    simp [dictGet, hp, ih h.2]

theorem dictGet_isSome_of_mem {d : List (String × α)} {k : String}
    (h : k ∈ dictKeys d) : ∃ v, dictGet d k = some v := by
  induction d with
  | nil => simp [dictKeys] at h
  | cons p rest ih =>
    rw [dictKeys_cons] at h
    by_cases hp : p.1 = k
    · exact ⟨p.2, by simp [dictGet, hp]⟩
    · rcases List.mem_cons.mp h with h1 | h1
      · exact absurd h1.symm hp
      · rcases ih h1 with ⟨v, hv⟩
        exact ⟨v, by simp [dictGet, hp, hv]⟩

theorem mem_of_dictGet_some {d : List (String × α)} {k : String} {v : α}
    (h : dictGet d k = some v) : k ∈ dictKeys d := by
  by_contra hk
  rw [dictGet_eq_none_of_not_mem hk] at h
  cases h

theorem dictGet_append_of_some {d : List (String × α)} {k : String} {v : α}
    (e : List (String × α)) (h : dictGet d k = some v) :
    dictGet (d ++ e) k = some v := by
  induction d with
  | nil => cases h
  | cons p rest ih =>
    rw [List.cons_append]
    by_cases hp : p.1 = k
    · simp only [dictGet, if_pos hp] at h ⊢; exact h
    · simp only [dictGet, if_neg hp] at h ⊢; exact ih h

theorem dictGet_append_of_none {d : List (String × α)} {k : String}
    (e : List (String × α)) (h : dictGet d k = Option.none) :
    dictGet (d ++ e) k = dictGet e k := by
  induction d with
  | nil => rfl
  | cons p rest ih =>
    rw [List.cons_append]
    by_cases hp : p.1 = k
    · simp only [dictGet, if_pos hp] at h; cases h
    · simp only [dictGet, if_neg hp] at h ⊢; exact ih h

theorem dictKeys_map_keep {d : List (String × α)} {f : String × α → String × α}
    (hf : ∀ p, (f p).1 = p.1) : dictKeys (d.map f) = dictKeys d := by
  induction d with
  | nil => rfl
  | cons p rest ih =>
    rw [List.map_cons, dictKeys_cons, dictKeys_cons, hf p, ih]

theorem dictGet_mapAt (d : List (String × α)) (k : String) (f : α → α) (k2 : String) :
    dictGet (d.map (fun p => if p.1 = k then (p.1, f p.2) else p)) k2 =
      if k2 = k then (dictGet d k2).map f else dictGet d k2 := by
  induction d with
  | nil => by_cases h : k2 = k <;> simp [dictGet, h]
  | cons p rest ih =>
    rw [List.map_cons]
    by_cases hp : p.1 = k
    · rw [if_pos hp]
      by_cases hpk2 : p.1 = k2
      · have h2 : k2 = k := hpk2.symm.trans hp
        simp [dictGet, hpk2, h2]
      · have h2 : ¬k2 = k := fun hh => hpk2 (hp.trans hh.symm)
        simp [dictGet, hpk2, h2, ih]
    · rw [if_neg hp]
      by_cases hpk2 : p.1 = k2
      · have h2 : ¬k2 = k := fun hh => hp (hpk2.trans hh)
        simp [dictGet, hpk2, h2]
      · simp [dictGet, hpk2, ih]

theorem dictGet_mapSet (d : List (String × α)) (k : String) (v : α) (k2 : String) :
    dictGet (d.map (fun p => if p.1 = k then (k, v) else p)) k2 =
      if k2 = k then (dictGet d k2).map (fun _ => v) else dictGet d k2 := by
  induction d with
  | nil => by_cases h : k2 = k <;> simp [dictGet, h]
  | cons p rest ih =>
    rw [List.map_cons]
    by_cases hp : p.1 = k
    · rw [if_pos hp]
      by_cases hpk2 : p.1 = k2
      · have h2 : k2 = k := hpk2.symm.trans hp
        subst h2
        simp [dictGet, hpk2]
      · have h2 : ¬k2 = k := fun hh => hpk2 (hp.trans hh.symm)
        have hk : ¬k = k2 := fun hh => h2 hh.symm
        simp [dictGet, hpk2, h2, hk, ih]
    · rw [if_neg hp]
      by_cases hpk2 : p.1 = k2
      · have h2 : ¬k2 = k := fun hh => hp (hpk2.trans hh)
        simp [dictGet, hpk2, h2]
      · simp [dictGet, hpk2, ih]

theorem dictGet_dictSet (d : List (String × α)) (k : String) (v : α) (k2 : String) :
    dictGet (dictSet d k v) k2 = if k2 = k then some v else dictGet d k2 := by
  unfold dictSet
  by_cases hm : dictMem d k
  · rw [if_pos hm, dictGet_mapSet]
    by_cases h2 : k2 = k
    · rcases dictGet_isSome_of_mem ((dictMem_iff d k).mp hm) with ⟨w, hw⟩
      rw [if_pos h2, if_pos h2, h2, hw]
      rfl
    · rw [if_neg h2, if_neg h2]
  · rw [if_neg hm]
    have hnone : dictGet d k = Option.none :=
      dictGet_eq_none_of_not_mem ((dictMem_false_iff d k).mp (by simpa using hm))
    by_cases h2 : k2 = k
    · rw [h2, dictGet_append_of_none _ hnone, if_pos rfl]
      simp [dictGet]
    · cases hdg : dictGet d k2 with
      | none =>
        rw [dictGet_append_of_none _ hdg, if_neg h2]
        have hkk : ¬k = k2 := fun hh => h2 hh.symm
        simp [dictGet, hkk, hdg]
      | some w =>
        rw [dictGet_append_of_some _ hdg]
        simp [h2, hdg]

theorem dictKeys_dictSet (d : List (String × α)) (k : String) (v : α) :
    dictKeys (dictSet d k v) =
      if dictMem d k then dictKeys d else dictKeys d ++ [k] := by
  unfold dictSet
  by_cases hm : dictMem d k
  · rw [if_pos hm, if_pos hm]
    exact dictKeys_map_keep (fun p => by by_cases hp : p.1 = k <;> simp [hp])
  · rw [if_neg hm, if_neg hm, dictKeys_append, dictKeys_cons, dictKeys_nil]

theorem dict_append_keys {gd gd2 : Graphdict} {k v : String}
    (h : dict_append gd k v = .ok gd2) : dictKeys gd2 = dictKeys gd := by
  unfold dict_append at h
  by_cases hm : dictMem gd k
  · rw [if_pos hm] at h
    cases h
    exact dictKeys_map_keep (fun p => by by_cases hp : p.1 = k <;> simp [hp])
  · rw [if_neg hm] at h; cases h

theorem dict_append_isOk {gd : Graphdict} {k : String} (v : String)
    (hm : dictMem gd k = true) :
    dict_append gd k v = .ok (gd.map (fun p => if p.1 = k then (p.1, p.2 ++ [v]) else p)) := by
  unfold dict_append
  rw [if_pos hm]

theorem dictGet_dict_append {gd gd2 : Graphdict} {k v : String}
    (h : dict_append gd k v = .ok gd2) (k2 : String) :
    dictGet gd2 k2 =
      if k2 = k then (dictGet gd k2).map (fun vs => vs ++ [v]) else dictGet gd k2 := by
  unfold dict_append at h
  by_cases hm : dictMem gd k
  · rw [if_pos hm] at h
    cases h
    exact dictGet_mapAt gd k (fun vs => vs ++ [v]) k2
  · rw [if_neg hm] at h; cases h

theorem dict_append_entries {gd gd2 : Graphdict} {k v : String}
    (h : dict_append gd k v = .ok gd2) :
    ∀ p ∈ gd2, ∃ q ∈ gd, p.1 = q.1 ∧ (p.2 = q.2 ∨ p.2 = q.2 ++ [v]) := by
  unfold dict_append at h
  by_cases hm : dictMem gd k
  · rw [if_pos hm] at h
    cases h
    intro p hp
    rcases List.mem_map.mp hp with ⟨q, hq, hfq⟩
    by_cases hqk : q.1 = k
    · exact ⟨q, hq, by simp [← hfq, hqk]⟩
    · exact ⟨q, hq, by simp [← hfq, hqk]⟩
  · rw [if_neg hm] at h; cases h

theorem keysExt_refl (gd : Graphdict) : keysExt gd gd :=
  ⟨[], by simp⟩

theorem keysExt_trans {a b c : Graphdict} (h1 : keysExt a b) (h2 : keysExt b c) :
    keysExt a c := by
  rcases h1 with ⟨t1, ht1⟩
  rcases h2 with ⟨t2, ht2⟩
  exact ⟨t1 ++ t2, by rw [ht2, ht1, List.append_assoc]⟩

theorem keysExt_mem {a b : Graphdict} (h : keysExt a b) {k : String}
    (hk : k ∈ dictKeys a) : k ∈ dictKeys b := by
  rcases h with ⟨t, ht⟩
  rw [ht]
  exact List.mem_append_left t hk

theorem keysExt_dictMem {a b : Graphdict} (h : keysExt a b) {k : String}
    (hk : dictMem a k = true) : dictMem b k = true :=
  (dictMem_iff b k).mpr (keysExt_mem h ((dictMem_iff a k).mp hk))

theorem keysExt_filter_le {a b : Graphdict} (h : keysExt a b) (pred : String → Bool) :
    ((dictKeys a).filter pred).length ≤ ((dictKeys b).filter pred).length := by
  rcases h with ⟨t, ht⟩
  rw [ht, List.filter_append, List.length_append]
  exact Nat.le_add_right _ _

theorem edge_target_resolved_mono {a b : Graphdict} (h : keysExt a b) {e : String}
    (he : edge_target_resolved a e) : edge_target_resolved b e := by
  rcases he with he | he
  · exact Or.inl (keysExt_dictMem h he)
  · exact Or.inr (le_trans he (keysExt_filter_le h _))

theorem keysExt_dict_append {gd gd2 : Graphdict} {k v : String}
    (h : dict_append gd k v = .ok gd2) : keysExt gd gd2 :=
  ⟨[], by rw [dict_append_keys h, List.append_nil]⟩

theorem keysExt_dictSet (d : Graphdict) (k : String) (v : List String) :
    keysExt d (dictSet d k v) := by
  rw [keysExt, dictKeys_dictSet]
  by_cases hm : dictMem d k
  · exact ⟨[], by rw [if_pos hm, List.append_nil]⟩
  · exact ⟨[k], by rw [if_neg hm]⟩

theorem dictMem_eq_contains (d : List (String × α)) (k : String) :
    dictMem d k = (dictKeys d).contains k := by
  by_cases h : k ∈ dictKeys d
  · rw [(dictMem_iff _ _).mpr h]
    exact (List.elem_iff.mpr h).symm
  · rw [(dictMem_false_iff _ _).mpr h]
    rw [eq_comm, ← Bool.not_eq_true]
    intro hc
    exact h (List.elem_iff.mp hc)

theorem dedupInto_nil (acc : List String) : dedupInto acc [] = acc := rfl

theorem dedupInto_cons (acc : List String) (x : String) (l : List String) :
    dedupInto acc (x :: l) =
      dedupInto (if acc.contains x then acc else acc ++ [x]) l := rfl

theorem dedupFirst_eq (l : List String) : dedupFirst l = dedupInto [] l := rfl

theorem dedupInto_mem (l : List String) : ∀ (acc : List String) (x : String),
    x ∈ dedupInto acc l ↔ x ∈ acc ∨ x ∈ l := by
  induction l with
  | nil => intro acc x; simp [dedupInto_nil]
  | cons y rest ih =>
    intro acc x
    rw [dedupInto_cons]
    by_cases hy : acc.contains y
    · rw [if_pos hy, ih]
      have hym : y ∈ acc := List.elem_iff.mp hy
      simp only [List.mem_cons]
      constructor
      · rintro (h | h)
        · exact Or.inl h
        · exact Or.inr (Or.inr h)
      · rintro (h | h | h)
        · exact Or.inl h
        · exact Or.inl (h ▸ hym)
        · exact Or.inr h
    · rw [if_neg hy, ih]
      simp only [List.mem_append, List.mem_singleton, List.mem_cons]
      tauto

theorem dedupInto_nodup (l : List String) : ∀ acc : List String,
    acc.Nodup → (dedupInto acc l).Nodup := by
  induction l with
  | nil => intro acc h; exact h
  | cons y rest ih =>
    intro acc h
    rw [dedupInto_cons]
    by_cases hy : acc.contains y
    · rw [if_pos hy]; exact ih acc h
    · rw [if_neg hy]
      apply ih
      have hny : y ∉ acc := fun hm => hy (List.elem_iff.mpr hm)
      simp [List.nodup_append, h, hny]

theorem dedupInto_ext (l : List String) : ∀ acc : List String,
    ∃ t, dedupInto acc l = acc ++ t := by
  induction l with
  | nil => intro acc; exact ⟨[], by simp [dedupInto_nil]⟩
  | cons y rest ih =>
    intro acc
    rw [dedupInto_cons]
    by_cases hy : acc.contains y
    · rw [if_pos hy]; exact ih acc
    · rw [if_neg hy]
      rcases ih (acc ++ [y]) with ⟨t, ht⟩
      exact ⟨[y] ++ t, by rw [ht, List.append_assoc]⟩

theorem dedupFirst_mem (l : List String) (x : String) :
    x ∈ dedupFirst l ↔ x ∈ l := by
  rw [dedupFirst_eq, dedupInto_mem]
  simp

theorem dedupFirst_nodup (l : List String) : (dedupFirst l).Nodup := by
  rw [dedupFirst_eq]
  exact dedupInto_nodup l [] List.nodup_nil

theorem setup_entry_some_facts {c : RChange} {node : String} {details : Attrs}
    (h : setup_entry c = .ok (some (node, details))) :
    c.mode = "managed" ∧ node_key c.address c.idx = .ok node := by
  unfold setup_entry at h
  by_cases hm : c.mode = "managed"
  · rw [if_pos hm] at h
    refine ⟨hm, ?_⟩
    cases hnk : node_key c.address c.idx with
    | error e => simp [hnk] at h
    | ok nd =>
      simp only [hnk] at h
      cases ha : c.address with
      | none => simp [ha] at h
      | some a =>
        simp only [ha] at h
        by_cases hmod : strContains a "module." = true
        · rw [if_pos hmod] at h
          cases hma : c.module_address with
          | none => simp [hma] at h
          | some ma =>
            simp only [hma] at h
            cases hps : py_split_second ma "module." with
            | none => simp [hps] at h
            | some mn =>
              simp only [hps, Except.ok.injEq, Option.some.injEq, Prod.mk.injEq] at h
              rw [h.1]
        · rw [if_neg hmod] at h
          simp only [Except.ok.injEq, Option.some.injEq, Prod.mk.injEq] at h
          rw [h.1]
  · rw [if_neg hm] at h; cases h

theorem setup_entry_skip {c : RChange} (h : setup_entry c = .ok Option.none) :
    ¬c.mode = "managed" := by
  intro hm
  unfold setup_entry at h
  rw [if_pos hm] at h
  cases hnk : node_key c.address c.idx with
  | error e => simp [hnk] at h
  | ok nd =>
    simp only [hnk] at h
    cases ha : c.address with
    | none => simp [ha] at h
    | some a =>
      simp only [ha] at h
      by_cases hmod : strContains a "module." = true
      · rw [if_pos hmod] at h
        cases hma : c.module_address with
        | none => simp [hma] at h
        | some ma =>
          simp only [hma] at h
          cases hps : py_split_second ma "module." with
          | none => simp [hps] at h
          | some mn => simp [hps] at h
      · rw [if_neg hmod] at h
        simp at h

theorem setup_entry_not_managed {c : RChange} (h : ¬c.mode = "managed") :
    setup_entry c = .ok Option.none := by
  unfold setup_entry
  rw [if_neg h]

theorem managed_keys_nil : managed_keys [] = [] := rfl

theorem managed_keys_cons_skip {c : RChange} (h : ¬c.mode = "managed")
    (l : List RChange) : managed_keys (c :: l) = managed_keys l := by
  simp [managed_keys, h]

theorem managed_keys_cons_node {c : RChange} {node : String}
    (hm : c.mode = "managed") (hk : node_key c.address c.idx = .ok node)
    (l : List RChange) : managed_keys (c :: l) = node :: managed_keys l := by
  simp [managed_keys, hm, hk, Except.toOption]

theorem dictSet_entries {d : List (String × α)} {k : String} {v : α}
    {p : String × α} (h : p ∈ dictSet d k v) : p = (k, v) ∨ p ∈ d := by
  unfold dictSet at h
  by_cases hm : dictMem d k
  · rw [if_pos hm] at h
    rcases List.mem_map.mp h with ⟨q, hq, hfq⟩
    by_cases hqk : q.1 = k
    · rw [if_pos hqk] at hfq
      exact Or.inl hfq.symm
    · rw [if_neg hqk] at hfq
      exact Or.inr (hfq ▸ hq)
  · rw [if_neg hm] at h
    rcases List.mem_append.mp h with h1 | h1
    · exact Or.inr h1
    · exact Or.inl (List.mem_singleton.mp h1)

theorem setup_node_some {td : TfData} {c : RChange} {node : String} {details : Attrs}
    (hse : setup_entry c = .ok (some (node, details))) :
    setup_node td c = .ok { td with
      graphdict := dictSet td.graphdict node ([] : List String)
      node_list := td.node_list ++ [node]
      meta_data := dictSet td.meta_data node details } := by
  unfold setup_node
  rw [hse]

theorem setup_node_skip {td : TfData} {c : RChange}
    (hse : setup_entry c = .ok Option.none) : setup_node td c = .ok td := by
  unfold setup_node
  rw [hse]

theorem setup_node_error {td : TfData} {c : RChange} {e : PErr}
    (hse : setup_entry c = .error e) : setup_node td c = .error e := by
  unfold setup_node
  rw [hse]

theorem setup_loop_spec {l : List RChange} : ∀ {td td2 : TfData},
    setup_loop td l = .ok td2 →
      td2.tf_resources_created = td.tf_resources_created ∧
      td2.tfgraph_objects = td.tfgraph_objects ∧
      td2.tfgraph_edges = td.tfgraph_edges ∧
      dictKeys td2.graphdict = dedupInto (dictKeys td.graphdict) (managed_keys l) ∧
      td2.node_list = td.node_list ++ managed_keys l ∧
      (∀ p ∈ td2.graphdict, p.2 = ([] : List String) ∨ p ∈ td.graphdict) := by
  induction l with
  | nil =>
    intro td td2 h
    unfold setup_loop at h
    cases h
    exact ⟨rfl, rfl, rfl, by rw [managed_keys_nil, dedupInto_nil],
      by rw [managed_keys_nil, List.append_nil], fun p hp => Or.inr hp⟩
  | cons c rest ih =>
    intro td td2 h
    unfold setup_loop at h
    cases hsn : setup_node td c with
    | error e => rw [hsn] at h; cases h
    | ok td1 =>
      rw [hsn] at h
      rcases ih h with ⟨h1, h2, h3, h4, h5, h6⟩
      unfold setup_node at hsn
      cases hse : setup_entry c with
      | error e => rw [hse] at hsn; cases hsn
      | ok r =>
        rw [hse] at hsn
        cases r with
        | none =>
          cases hsn
          have hnm := setup_entry_skip hse
          rw [managed_keys_cons_skip hnm]
          exact ⟨h1, h2, h3, h4, h5, h6⟩
        | some nd =>
          rcases nd with ⟨node, details⟩
          cases hsn
          rcases setup_entry_some_facts hse with ⟨hmode, hkey⟩
          rw [managed_keys_cons_node hmode hkey]
          refine ⟨h1, h2, h3, ?_, ?_, ?_⟩
          · rw [h4, dedupInto_cons]
            congr 1
            rw [dictKeys_dictSet, dictMem_eq_contains]
          · rw [h5, List.append_assoc, List.singleton_append]
          · intro p hp
            rcases h6 p hp with hp1 | hp1
            · exact Or.inl hp1
            · rcases dictSet_entries hp1 with hp2 | hp2
              · exact Or.inl (by rw [hp2])
              · exact Or.inr hp2

theorem setup_loop_ok_of_entries {l : List RChange}
    (hall : ∀ c ∈ l, entry_ok c = true) : ∀ td : TfData,
    ∃ td2, setup_loop td l = .ok td2 := by
  induction l with
  | nil => intro td; exact ⟨td, rfl⟩
  | cons c rest ih =>
    intro td
    have hc := hall c (List.mem_cons_self c rest)
    unfold entry_ok at hc
    cases hse : setup_entry c with
    | error e => rw [hse] at hc; cases hc
    | ok r =>
      have hrest : ∀ c2 ∈ rest, entry_ok c2 = true :=
        fun c2 hc2 => hall c2 (List.mem_cons_of_mem c hc2)
      cases r with
      | none =>
        rcases ih hrest td with ⟨td2, h2⟩
        exact ⟨td2, by unfold setup_loop; rw [setup_node_skip hse]; exact h2⟩
      | some nd =>
        rcases nd with ⟨node, details⟩
        rcases ih hrest { td with
          graphdict := dictSet td.graphdict node ([] : List String)
          node_list := td.node_list ++ [node]
          meta_data := dictSet td.meta_data node details } with ⟨td2, h2⟩
        exact ⟨td2, by unfold setup_loop; rw [setup_node_some hse]; exact h2⟩

theorem setup_loop_error_of_bad {c : RChange} {e : PErr}
    (hbad : setup_entry c = .error e) : ∀ {l : List RChange}, c ∈ l →
    ∀ td : TfData, ∃ e2, setup_loop td l = .error e2 := by
  intro l
  induction l with
  | nil => intro hc; cases hc
  | cons x rest ih =>
    intro hc td
    rcases List.mem_cons.mp hc with h1 | h1
    · subst h1
      exact ⟨e, by unfold setup_loop; rw [setup_node_error hbad]⟩
    · cases hsn : setup_node td x with
      | error e2 => exact ⟨e2, by unfold setup_loop; rw [hsn]⟩
      | ok td1 =>
        rcases ih h1 td1 with ⟨e2, he2⟩
        exact ⟨e2, by unfold setup_loop; simp only [hsn]; exact he2⟩

theorem setup_loop_entry_ok {l : List RChange} : ∀ {td td2 : TfData},
    setup_loop td l = .ok td2 → ∀ c ∈ l, ∃ r, setup_entry c = .ok r := by
  induction l with
  | nil => intro td td2 _ c hc; cases hc
  | cons x rest ih =>
    intro td td2 h c hc
    unfold setup_loop at h
    cases hsn : setup_node td x with
    | error e => rw [hsn] at h; cases h
    | ok td1 =>
      rw [hsn] at h
      rcases List.mem_cons.mp hc with h1 | h1
      · subst h1
        unfold setup_node at hsn
        cases hse : setup_entry c with
        | error e => rw [hse] at hsn; cases hsn
        | ok r => exact ⟨r, rfl⟩
      · exact ih h c h1

theorem setup_loop_mem_key {l : List RChange} : ∀ {td td2 : TfData},
    setup_loop td l = .ok td2 → ∀ c ∈ l, c.mode = "managed" →
    ∀ node, node_key c.address c.idx = .ok node →
    dictMem td2.graphdict node = true := by
  induction l with
  | nil => intro td td2 _ c hc; cases hc
  | cons x rest ih =>
    intro td td2 h c hc hmode node hkey
    unfold setup_loop at h
    cases hsn : setup_node td x with
    | error e => rw [hsn] at h; cases h
    | ok td1 =>
      rw [hsn] at h
      rcases List.mem_cons.mp hc with h1 | h1
      · subst h1
        unfold setup_node at hsn
        cases hse : setup_entry c with
        | error e => rw [hse] at hsn; cases hsn
        | ok r =>
          rw [hse] at hsn
          cases r with
          | none => exact absurd hmode (setup_entry_skip hse)
          | some nd =>
            rcases nd with ⟨node2, details⟩
            cases hsn
            rcases setup_entry_some_facts hse with ⟨_, hkey2⟩
            have hnn : node2 = node := by
              rw [hkey] at hkey2
              injection hkey2 with hh
              exact hh.symm
            have hmem1 : dictMem (dictSet td.graphdict node2 ([] : List String)) node2 = true := by
              rw [dictMem_iff, dictKeys_dictSet]
              by_cases hm2 : dictMem td.graphdict node2
              · rw [if_pos hm2]
                exact (dictMem_iff _ _).mp hm2
              · rw [if_neg hm2]
                exact List.mem_append_right _ (List.mem_singleton.mpr rfl)
            rcases setup_loop_spec h with ⟨_, _, _, h4, _, _⟩
            have hext : keysExt (dictSet td.graphdict node2 ([] : List String)) td2.graphdict := by
              rcases dedupInto_ext (managed_keys rest) (dictKeys (dictSet td.graphdict node2 ([] : List String))) with ⟨t, ht⟩
              exact ⟨t, by rw [h4]; exact ht⟩
            rw [← hnn]
            exact keysExt_dictMem hext hmem1
      · exact ih h c h1 hmode node hkey

theorem setup_graph_spec {td td2 : TfData} (h : setup_graph td = .ok td2) :
    td2.tf_resources_created = td.tf_resources_created ∧
    td2.tfgraph_objects = td.tfgraph_objects ∧
    td2.tfgraph_edges = td.tfgraph_edges ∧
    dictKeys td2.graphdict = dedupFirst (managed_keys td.tf_resources_created) ∧
    td2.node_list = dedupFirst (managed_keys td.tf_resources_created) ∧
    (∀ p ∈ td2.graphdict, p.2 = ([] : List String)) := by
  unfold setup_graph at h
  cases hsl : setup_loop { td with graphdict := [], meta_data := [], node_list := [] }
      td.tf_resources_created with
  | error e => simp only [hsl] at h; cases h
  | ok td1 =>
    simp only [hsl] at h
    cases h
    rcases setup_loop_spec hsl with ⟨h1, h2, h3, h4, h5, h6⟩
    refine ⟨h1, h2, h3, ?_, ?_, ?_⟩
    · rw [h4, dedupFirst_eq]
      rfl
    · show dedupFirst td1.node_list = _
      rw [h5]
      show dedupFirst ([] ++ managed_keys td.tf_resources_created) = _
      rw [List.nil_append]
    · intro p hp
      rcases h6 p hp with hp1 | hp1
      · exact hp1
      · cases hp1

theorem setup_graph_ok {td : TfData}
    (hall : ∀ c ∈ td.tf_resources_created, entry_ok c = true) :
    ∃ td2, setup_graph td = .ok td2 := by
  rcases setup_loop_ok_of_entries hall
      { td with graphdict := [], meta_data := [], node_list := [] } with ⟨td1, h1⟩
  exact ⟨{ td1 with node_list := dedupFirst td1.node_list },
    by unfold setup_graph; simp only [h1]⟩

theorem setup_graph_error {td : TfData} {c : RChange} {e : PErr}
    (hc : c ∈ td.tf_resources_created) (hbad : setup_entry c = .error e) :
    ∃ e2, setup_graph td = .error e2 := by
  rcases setup_loop_error_of_bad hbad hc
      { td with graphdict := [], meta_data := [], node_list := [] } with ⟨e2, h2⟩
  exact ⟨e2, by unfold setup_graph; simp only [h2]⟩

theorem setup_graph_entry_ok {td td2 : TfData} (h : setup_graph td = .ok td2) :
    ∀ c ∈ td.tf_resources_created, ∃ r, setup_entry c = .ok r := by
  unfold setup_graph at h
  cases hsl : setup_loop { td with graphdict := [], meta_data := [], node_list := [] }
      td.tf_resources_created with
  | error e => simp only [hsl] at h; cases h
  | ok td1 => exact setup_loop_entry_ok hsl

theorem setup_graph_mem_key {td td2 : TfData} (h : setup_graph td = .ok td2)
    {c : RChange} (hc : c ∈ td.tf_resources_created) (hm : c.mode = "managed")
    {node : String} (hk : node_key c.address c.idx = .ok node) :
    dictMem td2.graphdict node = true := by
  unfold setup_graph at h
  cases hsl : setup_loop { td with graphdict := [], meta_data := [], node_list := [] }
      td.tf_resources_created with
  | error e => simp only [hsl] at h; cases h
  | ok td1 =>
    simp only [hsl] at h
    cases h
    exact setup_loop_mem_key hsl c hc hm node hk

theorem dictGet_dictUpdate (d : List (String × α)) : ∀ e : List (String × α),
    (dictKeys e).Nodup → ∀ k,
    dictGet (dictUpdate d e) k =
      Option.orElse (dictGet e k) (fun _ => dictGet d k) := by
  intro e
  induction e generalizing d with
  | nil => intro _ k; simp [dictUpdate, dictGet, Option.orElse]
  | cons p rest ih =>
    intro he k
    rw [dictKeys_cons] at he
    have hpn : p.1 ∉ dictKeys rest := (List.nodup_cons.mp he).1
    have hrest : (dictKeys rest).Nodup := (List.nodup_cons.mp he).2
    have hstep : dictUpdate d (p :: rest) = dictUpdate (dictSet d p.1 p.2) rest := rfl
    rw [hstep, ih _ hrest]
    by_cases hk : k = p.1
    · subst hk
      rw [dictGet_eq_none_of_not_mem hpn, dictGet_dictSet]
      simp [dictGet, Option.orElse]
    · have hpk : ¬p.1 = k := fun hh => hk hh.symm
      rw [dictGet_dictSet]
      rw [if_neg hk]
      cases hr : dictGet rest k with
      | none => simp [dictGet, hpk, hr, Option.orElse]
      | some v => simp [dictGet, hpk, hr, Option.orElse]

theorem setup_entry_key_error {c : RChange} {e : PErr} (hm : c.mode = "managed")
    (hk : node_key c.address c.idx = .error e) : setup_entry c = .error e := by
  unfold setup_entry
  rw [if_pos hm, hk]

theorem make_tf_data_ok {changes : List RChange} (h : changes ≠ [])
    (objects : List GObj) (edges : List GEdge) :
    make_tf_data changes objects edges =
      .ok { tf_resources_created := changes, tfgraph_objects := objects,
            tfgraph_edges := edges, graphdict := [], meta_data := [], node_list := [] } := by
  unfold make_tf_data
  rw [if_pos h]

theorem offline_core {td0 td : TfData} (h : setup_graph td0 = .ok td) :
    (∀ p ∈ td.graphdict, p.2 = ([] : List String)) ∧
    (∀ c ∈ td.tf_resources_created, c.mode = "managed" →
      ∃ k, node_key c.address c.idx = .ok k ∧ dictMem td.graphdict k = true) := by
  rcases setup_graph_spec h with ⟨h1, _, _, _, _, h6⟩
  refine ⟨h6, ?_⟩
  intro c hc hm
  rw [h1] at hc
  rcases setup_graph_entry_ok h c hc with ⟨r, hr⟩
  cases r with
  | none => exact absurd hm (setup_entry_skip hr)
  | some nd =>
    rcases nd with ⟨node, details⟩
    rcases setup_entry_some_facts hr with ⟨_, hk⟩
    exact ⟨node, hk, setup_graph_mem_key h hc hm hk⟩

/-- Claim C5: the Node Builder appends exactly the suffix `~<i+1>` for an
integer (count) index `i`, exactly `[k]` for a string (for-each) key `k`,
and uses the bare address when the record has no index. -/
theorem C5_node_key_suffix : ∀ (a : String) (i : Int) (k : String),
    node_key (some a) (some (AVal.i i)) = .ok (a ++ ("~" ++ toString (i + 1))) ∧
    node_key (some a) (some (AVal.s k)) = .ok (a ++ ("[" ++ k ++ "]")) ∧
    node_key (some a) Option.none = .ok a := by
  intro a i k
  exact ⟨rfl, rfl, rfl⟩

/-- Claim C10: a managed node's attribute mapping is `change.after` overlaid
in order by `after_unknown` then `after_sensitive`, later overlays winning on
key collision; on the spec's concrete example the merge is
`[a = 2, b = 4]`. -/
theorem C10_attr_overlay :
    (∀ (after after_unknown after_sensitive : Attrs),
      (dictKeys after_unknown).Nodup → (dictKeys after_sensitive).Nodup →
      ∀ k, dictGet (merge_attrs after after_unknown after_sensitive) k =
        Option.orElse (dictGet after_sensitive k)
          (fun _ => Option.orElse (dictGet after_unknown k)
            (fun _ => dictGet after k))) ∧
    (∀ (c : RChange) (node : String) (details : Attrs),
      setup_entry c = .ok (some (node, details)) →
      strContains (pystr c.address) "module." = false →
      details = merge_attrs c.after c.after_unknown c.after_sensitive) ∧
    merge_attrs [("a", AVal.i 1)] [("a", AVal.i 2), ("b", AVal.i 3)] [("b", AVal.i 4)] =
      [("a", AVal.i 2), ("b", AVal.i 4)] := by
  refine ⟨?_, ?_, by decide⟩
  · intro a u s hu hs k
    unfold merge_attrs
    rw [dictGet_dictUpdate _ s hs, dictGet_dictUpdate _ u hu]
  · intro c node details h hmod
    unfold setup_entry at h
    by_cases hm : c.mode = "managed"
    · rw [if_pos hm] at h
      cases hnk : node_key c.address c.idx with
      | error e => simp [hnk] at h
      | ok nd =>
        simp only [hnk] at h
        cases ha : c.address with
        | none => simp [ha] at h
        | some a =>
          simp only [ha] at h
          have hmod2 : strContains a "module." = false := by
            rw [ha] at hmod
            exact hmod
          have hmod3 : ¬strContains a "module." = true := by simp [hmod2]
          rw [if_neg hmod3] at h
          simp only [Except.ok.injEq, Option.some.injEq, Prod.mk.injEq] at h
          exact h.2.symm
    · rw [if_neg hm] at h; cases h

/-- Witness for C10 at the spec's concrete overlay example. -/
theorem C10_attr_overlay_witness :
    dictGet (merge_attrs [("a", AVal.i 1)] [("a", AVal.i 2), ("b", AVal.i 3)]
        [("b", AVal.i 4)]) "a" =
      Option.orElse (dictGet [("b", AVal.i 4)] "a")
        (fun _ => Option.orElse (dictGet [("a", AVal.i 2), ("b", AVal.i 3)] "a")
          (fun _ => dictGet [("a", AVal.i 1)] "a")) :=
  C10_attr_overlay.1 [("a", AVal.i 1)] [("a", AVal.i 2), ("b", AVal.i 3)]
    [("b", AVal.i 4)] (by decide) (by decide) "a"

/-- Claim C9: a record produces a node exactly when `mode == "managed"`; the
produced keys are pairwise distinct; the node list preserves first-seen
order with duplicates collapsed to their first occurrence, and no error is
raised (given every record's own key construction succeeds, cf. C6). -/
theorem C9_node_builder : ∀ (changes : List RChange) (td : TfData),
    (∀ c ∈ changes, entry_ok c = true) →
    ∃ td2, setup_graph { td with tf_resources_created := changes } = .ok td2 ∧
      dictKeys td2.graphdict = dedupFirst (managed_keys changes) ∧
      td2.node_list = dedupFirst (managed_keys changes) ∧
      (dictKeys td2.graphdict).Nodup ∧
      (∀ k, k ∈ dictKeys td2.graphdict ↔
        ∃ c ∈ changes, c.mode = "managed" ∧ node_key c.address c.idx = .ok k) := by
  intro changes td hall
  rcases @setup_graph_ok { td with tf_resources_created := changes } hall
    with ⟨td2, h⟩
  rcases setup_graph_spec h with ⟨_, _, _, h4, h5, _⟩
  refine ⟨td2, h, h4, h5, ?_, ?_⟩
  · rw [h4]
    exact dedupFirst_nodup _
  · intro k
    rw [h4, dedupFirst_mem]
    constructor
    · intro hk
      rcases List.mem_filterMap.mp hk with ⟨c, hc, hfc⟩
      by_cases hm : c.mode = "managed"
      · rw [if_pos hm] at hfc
        refine ⟨c, hc, hm, ?_⟩
        cases hnk : node_key c.address c.idx with
        | error e => rw [hnk] at hfc; cases hfc
        | ok nd =>
          rw [hnk] at hfc
          simp only [Except.toOption, Option.some.injEq] at hfc
          rw [hfc]
      · rw [if_neg hm] at hfc; cases hfc
    · rintro ⟨c, hc, hm, hk2⟩
      apply List.mem_filterMap.mpr
      refine ⟨c, hc, ?_⟩
      rw [if_pos hm, hk2]
      rfl

/-- Witness for C9: a duplicated managed address and a data record. -/
theorem C9_node_builder_witness :
    ∃ td2, setup_graph { w9base with tf_resources_created := w9changes } = .ok td2 ∧
      dictKeys td2.graphdict = dedupFirst (managed_keys w9changes) ∧
      td2.node_list = dedupFirst (managed_keys w9changes) ∧
      (dictKeys td2.graphdict).Nodup ∧
      (∀ k, k ∈ dictKeys td2.graphdict ↔
        ∃ c ∈ w9changes, c.mode = "managed" ∧ node_key c.address c.idx = .ok k) :=
  C9_node_builder w9changes w9base (by decide)

/-- Claim C6: a resource-change record whose `index` key is present but null
makes the Node Builder's key construction raise `TypeError` (the code tests
key presence, then concatenates the null index into the bracket suffix);
`_plandata_from_state` always emits such an `index` key (null when the
instance has no `index_key`), so the offline state path fails on any managed
resource with a non-indexed instance. -/
theorem C6_null_index :
    (∀ a : Option String, node_key a (some AVal.none) =
      .error (.typeErr "can only concatenate str (not NoneType) to str")) ∧
    (∀ (resources : List SResource) (r : SResource) (inst : SInstance),
      r ∈ resources → inst ∈ res_instances r →
      mk_change r inst ∈ _plandata_from_state resources ∧
      (mk_change r inst).idx = some inst.index_key) ∧
    (∀ (resources : List SResource) (r : SResource) (inst : SInstance),
      r ∈ resources → inst ∈ res_instances r →
      inst.index_key = AVal.none → r.mode.getD "managed" = "managed" →
      ∃ e, tf_from_offline Option.none (some resources) = .error e) := by
  refine ⟨fun a => rfl, ?_, ?_⟩
  · intro resources r inst hr hinst
    constructor
    · unfold _plandata_from_state
      exact List.mem_flatMap.mpr ⟨r, hr, List.mem_map.mpr ⟨inst, hinst, rfl⟩⟩
    · rfl
  · intro resources r inst hr hinst hnone hmode
    have hkeyerr : node_key (mk_change r inst).address (mk_change r inst).idx =
        .error (.typeErr "can only concatenate str (not NoneType) to str") := by
      show node_key (mk_change r inst).address (some inst.index_key) = _
      rw [hnone]
      rfl
    have hbad : setup_entry (mk_change r inst) =
        .error (.typeErr "can only concatenate str (not NoneType) to str") :=
      setup_entry_key_error hmode hkeyerr
    have hmem : mk_change r inst ∈ _plandata_from_state resources := by
      unfold _plandata_from_state
      exact List.mem_flatMap.mpr ⟨r, hr, List.mem_map.mpr ⟨inst, hinst, rfl⟩⟩
    have hne : _plandata_from_state resources ≠ [] := List.ne_nil_of_mem hmem
    have hmem2 : mk_change r inst ∈
        (({ tf_resources_created := _plandata_from_state resources,
            tfgraph_objects := [], tfgraph_edges := [],
            graphdict := [], meta_data := [], node_list := [] } : TfData)).tf_resources_created :=
      hmem
    rcases setup_graph_error hmem2 hbad with ⟨e2, he2⟩
    refine ⟨e2, ?_⟩
    unfold tf_from_offline
    simp only [make_tf_data_ok hne]
    exact he2

/-- Witness for C6: a managed state resource with one non-indexed instance. -/
theorem C6_null_index_witness :
    ∃ e, tf_from_offline Option.none (some c6res) = .error e :=
  C6_null_index.2.2 c6res
    { mode := Option.none, moduleName := Option.none, address := some "aws_s3_bucket.b",
      instances := some [⟨AVal.none, [("bucket", AVal.s "b")]⟩] }
    ⟨AVal.none, [("bucket", AVal.s "b")]⟩
    (by decide) (by decide) rfl rfl

/-- Claim C3 (amended): when no low-level graph is supplied, `tf_from_offline`
skips the Edge Resolver and returns every managed node with an empty edge
list; the Implied-Relation Inferencer is NOT invoked on this path (it
returns right after `setup_graph`), so no containment edges are added there
either. -/
theorem C3_offline_no_edges :
    ∀ (plan : Option (Option (List RChange))) (state : Option (List SResource))
      (td : TfData), tf_from_offline plan state = .ok td →
      (∀ p ∈ td.graphdict, p.2 = ([] : List String)) ∧
      (∀ c ∈ td.tf_resources_created, c.mode = "managed" →
        ∃ k, node_key c.address c.idx = .ok k ∧ dictMem td.graphdict k = true) := by
  intro plan state td h
  cases plan with
  | none =>
    cases state with
    | none => unfold tf_from_offline at h; cases h
    | some res =>
      unfold tf_from_offline at h
      cases hmk : make_tf_data (_plandata_from_state res) [] [] with
      | error e => simp only [hmk] at h; cases h
      | ok td1 =>
        simp only [hmk] at h
        exact offline_core h
  | some pj =>
    cases pj with
    | none =>
      unfold tf_from_offline at h
      simp only [_plandata_from_plan] at h
      cases h
    | some changes =>
      unfold tf_from_offline at h
      simp only [_plandata_from_plan] at h
      cases hmk : make_tf_data changes [] [] with
      | error e => simp only [hmk] at h; cases h
      | ok td1 =>
        simp only [hmk] at h
        exact offline_core h

/-- Witness for C3 (amended) on a one-resource offline plan. -/
theorem C3_offline_no_edges_witness :
    tf_from_offline (some (some w3changes)) Option.none = .ok w3out ∧
    (∀ p ∈ w3out.graphdict, p.2 = ([] : List String)) :=
  ⟨by decide, (C3_offline_no_edges (some (some w3changes)) Option.none w3out (by decide)).1⟩

/-- Counterexample to C3 as stated: on the offline path the vpc node's edge
list stays empty even though an overlapping subnet exists — the
implied-relation step does not run there, while running
`add_vpc_implied_relations` on the same data would add the containment
edge. -/
theorem C3_offline_cex :
    tf_from_offline (some (some c3changes)) Option.none = .ok c3out ∧
    get_cidr c3out "aws_vpc.main" = .ok ⟨167772160, 167837695⟩ ∧
    get_cidr c3out "aws_subnet.a" = .ok ⟨167772416, 167772671⟩ ∧
    ip_overlaps ⟨167772416, 167772671⟩ ⟨167772160, 167837695⟩ = true ∧
    dictGet c3out.graphdict "aws_vpc.main" = some [] ∧
    add_vpc_implied_relations c3out = .ok { c3out with
      graphdict := [("aws_vpc.main", ["aws_subnet.a"]), ("aws_subnet.a", [])] } := by
  decide

/-- Claim C4 (amended): after the earlier stages succeed, `tf_makegraph`
fails with the terminal empty-domain error exactly when no node key contains
the supported provider prefix `aws_`, and succeeds silently (returning the
graph unchanged) otherwise; the failure is a bare `exit()`, i.e. a process
exit with status 0, not a non-zero one. -/
theorem C4_validator :
    ∀ (REV : List String) (td td3 : TfData), tf_makegraph_pre REV td = .ok td3 →
      ((list_of_dictkeys_containing td3.graphdict "aws_").length = 0 →
        tf_makegraph REV td = .error (.systemExit 0)) ∧
      (0 < (list_of_dictkeys_containing td3.graphdict "aws_").length →
        tf_makegraph REV td = .ok td3) ∧
      ((list_of_dictkeys_containing td3.graphdict "aws_").length = 0 ↔
        ∀ k ∈ dictKeys td3.graphdict, strContains k "aws_" = false) := by
  intro REV td td3 h
  refine ⟨?_, ?_, ?_⟩
  · intro hz
    unfold tf_makegraph
    simp only [h]
    unfold validate_domain
    rw [if_pos hz]
  · intro hp
    unfold tf_makegraph
    simp only [h]
    unfold validate_domain
    rw [if_neg (Nat.pos_iff_ne_zero.mp hp)]
  · unfold list_of_dictkeys_containing
    rw [List.length_eq_zero, List.filter_eq_nil_iff]
    constructor
    · intro hall k hk
      exact Bool.eq_false_iff.mpr (hall k hk)
    · intro hall a ha
      rw [hall a ha]
      simp

/-- Witness for C4 (amended): a plan containing an aws resource passes the
validator and is returned unchanged. -/
theorem C4_validator_witness : tf_makegraph [] w4td = .ok w4out :=
  (C4_validator [] w4td w4out (by decide)).2.1 (by decide)

/-- Counterexample to C4 as stated: a plan whose only node key is of an
unsupported provider makes `tf_makegraph` fail as claimed, but through the
bare `exit()` builtin — `SystemExit(None)`, process status 0 — not a
non-zero exit. -/
theorem C4_validator_cex :
    tf_makegraph_pre [] c4td = .ok { c4td with
      graphdict := [("google_compute.x", [])]
      meta_data := [("google_compute.x", [])]
      node_list := ["google_compute.x"] } ∧
    tf_makegraph [] c4td = .error (.systemExit 0) := by
  decide

theorem pick_node_of_mem {gd : Graphdict} {node : String}
    (h : dictMem gd node = true) (mns : List String) :
    pick_node gd node mns = node := by
  unfold pick_node
  rw [if_neg]
  intro hcond
  rw [h] at hcond
  exact absurd hcond.1 (by simp)

theorem pick_conn_resolved {gd : Graphdict} {tl : String}
    (hmc : 0 < ((dictKeys gd).filter (fun k => str_startsWith k tl)).length) :
    edge_target_resolved gd
      (pick_conn gd tl ((dictKeys gd).filter (fun k => str_startsWith k tl))) := by
  unfold pick_conn
  by_cases hc : dictMem gd tl = false ∧
      ((dictKeys gd).filter (fun k => str_startsWith k tl)).length = 1
  · rw [if_pos hc]
    cases hfl : (dictKeys gd).filter (fun k => str_startsWith k tl) with
    | nil => rw [hfl] at hmc; simp at hmc
    | cons x rest =>
      have hx : x ∈ (dictKeys gd).filter (fun k => str_startsWith k tl) := by
        rw [hfl]; exact List.mem_cons_self x rest
      have hxk : x ∈ dictKeys gd := (List.mem_filter.mp hx).1
      exact Or.inl ((dictMem_iff _ _).mpr hxk)
  · rw [if_neg hc]
    by_cases hm : dictMem gd tl = true
    · exact Or.inl hm
    · have hmf : dictMem gd tl = false := Bool.eq_false_iff.mpr hm
      have hlen : ¬((dictKeys gd).filter (fun k => str_startsWith k tl)).length = 1 :=
        fun hl => hc ⟨hmf, hl⟩
      right
      omega

theorem conn_step_spec {REV gvt : List String} {node_id : Nat} {gd : Graphdict}
    {node : String} {c : GEdge} {gd2 : Graphdict} {node2 : String}
    (hmem : dictMem gd node = true)
    (h : conn_step REV gvt node_id gd node c = .ok (gd2, node2)) :
    keysExt gd gd2 ∧ dictMem gd2 node2 = true ∧
    (graph_edges_resolved gd → graph_edges_resolved gd2) := by
  unfold conn_step at h
  by_cases hh : node_id = c.head
  · rw [if_pos hh] at h
    cases hget : gvt.get? c.tail with
    | none => simp only [hget] at h; cases h
    | some tl =>
      simp only [hget] at h
      by_cases hmc : 0 < ((dictKeys gd).filter (fun k => str_startsWith k tl)).length
      · rw [if_pos hmc] at h
        rw [pick_node_of_mem hmem] at h
        by_cases hrev : REV.contains (py_split_head tl '.') = true
        · rw [if_pos hrev] at h
          by_cases hcm : dictMem gd
              (pick_conn gd tl ((dictKeys gd).filter (fun k => str_startsWith k tl))) = false
          · rw [if_pos hcm] at h
            cases hda : dict_append
                (gd ++ [(pick_conn gd tl
                  ((dictKeys gd).filter (fun k => str_startsWith k tl)), [])])
                (pick_conn gd tl ((dictKeys gd).filter (fun k => str_startsWith k tl)))
                node with
            | error e => simp only [hda] at h; cases h
            | ok gd3 =>
              simp only [hda] at h
              injection h with h1
              injection h1 with hg hn
              subst hg; subst hn
              have hext1 : keysExt gd (gd ++ [(pick_conn gd tl
                  ((dictKeys gd).filter (fun k => str_startsWith k tl)), [])]) :=
                ⟨[pick_conn gd tl ((dictKeys gd).filter (fun k => str_startsWith k tl))],
                  by rw [dictKeys_append]; rfl⟩
              have hkeq := dict_append_keys hda
              have hext2 : keysExt (gd ++ [(pick_conn gd tl
                  ((dictKeys gd).filter (fun k => str_startsWith k tl)), [])]) gd3 :=
                ⟨[], by rw [hkeq, List.append_nil]⟩
              have hext : keysExt gd gd3 := keysExt_trans hext1 hext2
              refine ⟨hext, keysExt_dictMem hext hmem, ?_⟩
              intro hI
              have hI1 : graph_edges_resolved (gd ++ [(pick_conn gd tl
                  ((dictKeys gd).filter (fun k => str_startsWith k tl)), [])]) := by
                intro p hp e he
                rcases List.mem_append.mp hp with hp1 | hp1
                · exact edge_target_resolved_mono hext1 (hI p hp1 e he)
                · rw [List.mem_singleton] at hp1
                  subst hp1
                  cases he
              intro p hp e he
              rcases dict_append_entries hda p hp with ⟨q, hq, _, hpq | hpq⟩
              · exact edge_target_resolved_mono hext2 (hI1 q hq e (by rw [← hpq]; exact he))
              · rw [hpq] at he
                rcases List.mem_append.mp he with he1 | he1
                · exact edge_target_resolved_mono hext2 (hI1 q hq e he1)
                · rw [List.mem_singleton] at he1
                  subst he1
                  exact Or.inl (keysExt_dictMem hext hmem)
          · rw [if_neg hcm] at h
            cases hda : dict_append gd
                (pick_conn gd tl ((dictKeys gd).filter (fun k => str_startsWith k tl)))
                node with
            | error e => simp only [hda] at h; cases h
            | ok gd3 =>
              simp only [hda] at h
              injection h with h1
              injection h1 with hg hn
              subst hg; subst hn
              have hkeq := dict_append_keys hda
              have hext : keysExt gd gd3 := ⟨[], by rw [hkeq, List.append_nil]⟩
              refine ⟨hext, keysExt_dictMem hext hmem, ?_⟩
              intro hI p hp e he
              rcases dict_append_entries hda p hp with ⟨q, hq, _, hpq | hpq⟩
              · exact edge_target_resolved_mono hext (hI q hq e (by rw [← hpq]; exact he))
              · rw [hpq] at he
                rcases List.mem_append.mp he with he1 | he1
                · exact edge_target_resolved_mono hext (hI q hq e he1)
                · rw [List.mem_singleton] at he1
                  subst he1
                  exact Or.inl (keysExt_dictMem hext hmem)
        · rw [if_neg hrev] at h
          cases hda : dict_append gd node
              (pick_conn gd tl ((dictKeys gd).filter (fun k => str_startsWith k tl))) with
          | error e => simp only [hda] at h; cases h
          | ok gd3 =>
            simp only [hda] at h
            injection h with h1
            injection h1 with hg hn
            subst hg; subst hn
            have hkeq := dict_append_keys hda
            have hext : keysExt gd gd3 := ⟨[], by rw [hkeq, List.append_nil]⟩
            refine ⟨hext, keysExt_dictMem hext hmem, ?_⟩
            intro hI p hp e he
            rcases dict_append_entries hda p hp with ⟨q, hq, _, hpq | hpq⟩
            · exact edge_target_resolved_mono hext (hI q hq e (by rw [← hpq]; exact he))
            · rw [hpq] at he
              rcases List.mem_append.mp he with he1 | he1
              · exact edge_target_resolved_mono hext (hI q hq e he1)
              · rw [List.mem_singleton] at he1
                subst he1
                exact edge_target_resolved_mono hext (pick_conn_resolved hmc)
      · rw [if_neg hmc] at h
        injection h with h1
        injection h1 with hg hn
        subst hg; subst hn
        exact ⟨keysExt_refl gd, hmem, fun hg => hg⟩
  · rw [if_neg hh] at h
    injection h with h1
    injection h1 with hg hn
    subst hg; subst hn
    exact ⟨keysExt_refl gd, hmem, fun hg => hg⟩

theorem conn_loop_spec {REV gvt : List String} {node_id : Nat} :
    ∀ {edges : List GEdge} {gd : Graphdict} {node : String} {gd2 : Graphdict}
      {node2 : String},
      conn_loop REV gvt node_id gd node edges = .ok (gd2, node2) →
      dictMem gd node = true →
      keysExt gd gd2 ∧ dictMem gd2 node2 = true ∧
      (graph_edges_resolved gd → graph_edges_resolved gd2) := by
  intro edges
  induction edges with
  | nil =>
    intro gd node gd2 node2 h hmem
    unfold conn_loop at h
    injection h with h1
    injection h1 with hg hn
    subst hg; subst hn
    exact ⟨keysExt_refl gd, hmem, fun hg => hg⟩
  | cons c rest ih =>
    intro gd node gd2 node2 h hmem
    unfold conn_loop at h
    cases hcs : conn_step REV gvt node_id gd node c with
    | error e => simp only [hcs] at h; cases h
    | ok pr =>
      rcases pr with ⟨gd1, node1⟩
      simp only [hcs] at h
      rcases conn_step_spec hmem hcs with ⟨he1, hm1, hi1⟩
      rcases ih h hm1 with ⟨he2, hm2, hi2⟩
      exact ⟨keysExt_trans he1 he2, hm2, fun hI => hi2 (hi1 hI)⟩

theorem node_loop_spec {REV gvt : List String} {edges : List GEdge} :
    ∀ {nodes : List String} {gd gd2 : Graphdict},
      node_loop REV gvt edges gd nodes = .ok gd2 →
      (∀ n ∈ nodes, dictMem gd n = true) →
      keysExt gd gd2 ∧
      (graph_edges_resolved gd → graph_edges_resolved gd2) := by
  intro nodes
  induction nodes with
  | nil =>
    intro gd gd2 h _
    unfold node_loop at h
    injection h with h1
    subst h1
    exact ⟨keysExt_refl gd, fun hg => hg⟩
  | cons node rest ih =>
    intro gd gd2 h hall
    unfold node_loop at h
    cases hlk : lookup_node_id gvt node with
    | error e => simp only [hlk] at h; cases h
    | ok nid =>
      simp only [hlk] at h
      by_cases hedges : edges.isEmpty = true
      · rw [if_pos hedges] at h
        exact ih h (fun n hn => hall n (List.mem_cons_of_mem _ hn))
      · rw [if_neg hedges] at h
        cases hcl : conn_loop REV gvt nid gd node edges with
        | error e => simp only [hcl] at h; cases h
        | ok pr =>
          rcases pr with ⟨gd1, nodeX⟩
          simp only [hcl] at h
          rcases conn_loop_spec hcl (hall node (List.mem_cons_self _ _)) with ⟨he1, _, hi1⟩
          rcases ih h (fun n hn => keysExt_dictMem he1 (hall n (List.mem_cons_of_mem _ hn)))
            with ⟨he2, hi2⟩
          exact ⟨keysExt_trans he1 he2, fun hI => hi2 (hi1 hI)⟩

theorem resolve_edges_spec {REV : List String} {td td2 : TfData}
    (h : resolve_edges_stage REV td = .ok td2) :
    td2.tf_resources_created = td.tf_resources_created ∧
    td2.meta_data = td.meta_data ∧
    keysExt td.graphdict td2.graphdict ∧
    (graph_edges_resolved td.graphdict → graph_edges_resolved td2.graphdict) := by
  unfold resolve_edges_stage at h
  cases hb : build_gvid_loop [] td.tfgraph_objects with
  | error e => simp only [hb] at h; cases h
  | ok gvt =>
    simp only [hb] at h
    cases hnl : node_loop REV gvt td.tfgraph_edges td.graphdict (dictKeys td.graphdict) with
    | error e => simp only [hnl] at h; cases h
    | ok gd =>
      simp only [hnl] at h
      cases h
      rcases node_loop_spec hnl (fun n hn => (dictMem_iff _ _).mpr hn) with ⟨he, hi⟩
      exact ⟨rfl, rfl, he, hi⟩

theorem gdExtends_refl (gd : Graphdict) : gdExtends gd gd :=
  fun _ vs h => ⟨[], by rw [List.append_nil]; exact h⟩

theorem gdExtends_trans {a b c : Graphdict} (h1 : gdExtends a b) (h2 : gdExtends b c) :
    gdExtends a c := by
  intro k vs h
  rcases h1 k vs h with ⟨e1, he1⟩
  rcases h2 k _ he1 with ⟨e2, he2⟩
  exact ⟨e1 ++ e2, by rw [he2, List.append_assoc]⟩

theorem gdExtends_dict_append {gd gd2 : Graphdict} {k v : String}
    (hda : dict_append gd k v = .ok gd2) : gdExtends gd gd2 := by
  intro k2 vs hg
  rw [dictGet_dict_append hda k2]
  by_cases hk : k2 = k
  · rw [if_pos hk, hg]
    exact ⟨[v], rfl⟩
  · rw [if_neg hk, hg]
    exact ⟨[], by rw [List.append_nil]⟩

theorem mem_getD_some {o : Option (List String)} {s : String}
    (h : s ∈ o.getD []) : ∃ vs, o = some vs ∧ s ∈ vs := by
  cases o with
  | none => simp at h
  | some vs => exact ⟨vs, rfl, h⟩

theorem get_cidr_meta {td td2 : TfData} (h : td2.meta_data = td.meta_data)
    (k : String) : get_cidr td2 k = get_cidr td k := by
  unfold get_cidr
  rw [h]

theorem subnet_loop_spec {vpc : String} {vcidr : IPNet} :
    ∀ {subs : List String} {td td2 : TfData},
      subnet_loop td vpc vcidr subs = .ok td2 →
      td2.tf_resources_created = td.tf_resources_created ∧
      td2.meta_data = td.meta_data ∧
      dictKeys td2.graphdict = dictKeys td.graphdict ∧
      gdExtends td.graphdict td2.graphdict ∧
      (∀ p ∈ td2.graphdict, ∀ e ∈ p.2,
        (∃ q ∈ td.graphdict, e ∈ q.2) ∨ e ∈ subs) := by
  intro subs
  induction subs with
  | nil =>
    intro td td2 h
    unfold subnet_loop at h
    cases h
    exact ⟨rfl, rfl, rfl, gdExtends_refl _, fun p hp e he => Or.inl ⟨p, hp, he⟩⟩
  | cons s rest ih =>
    intro td td2 h
    unfold subnet_loop at h
    cases hgc : get_cidr td s with
    | error e => simp only [hgc] at h; cases h
    | ok scidr =>
      simp only [hgc] at h
      by_cases hov : ip_overlaps scidr vcidr = true
      · rw [if_pos hov] at h
        cases hda : dict_append td.graphdict vpc s with
        | error e => simp only [hda] at h; cases h
        | ok gd1 =>
          simp only [hda] at h
          rcases ih h with ⟨h1, h2, h3, h4, h5⟩
          have hkeq : dictKeys gd1 = dictKeys td.graphdict := dict_append_keys hda
          refine ⟨h1, h2, by rw [h3]; exact hkeq,
            gdExtends_trans (gdExtends_dict_append hda) h4, ?_⟩
          intro p hp e he
          rcases h5 p hp e he with ⟨q, hq, hqe⟩ | hsub
          · rcases dict_append_entries hda q hq with ⟨q0, hq0, _, hq0e | hq0e⟩
            · exact Or.inl ⟨q0, hq0, by rw [← hq0e]; exact hqe⟩
            · rw [hq0e] at hqe
              rcases List.mem_append.mp hqe with hqe1 | hqe1
              · exact Or.inl ⟨q0, hq0, hqe1⟩
              · rw [List.mem_singleton] at hqe1
                subst hqe1
                exact Or.inr (List.mem_cons_self _ _)
          · exact Or.inr (List.mem_cons_of_mem _ hsub)
      · rw [if_neg hov] at h
        rcases ih h with ⟨h1, h2, h3, h4, h5⟩
        refine ⟨h1, h2, h3, h4, ?_⟩
        intro p hp e he
        rcases h5 p hp e he with hq | hsub
        · exact Or.inl hq
        · exact Or.inr (List.mem_cons_of_mem _ hsub)

theorem subnet_loop_mem {vpc : String} {vcidr : IPNet} :
    ∀ {subs : List String} {td td2 : TfData},
      subnet_loop td vpc vcidr subs = .ok td2 →
      ∀ s ∈ subs, ∀ sc : IPNet, get_cidr td s = .ok sc →
      ip_overlaps sc vcidr = true → dictMem td.graphdict vpc = true →
      s ∈ (dictGet td2.graphdict vpc).getD [] := by
  intro subs
  induction subs with
  | nil => intro td td2 _ s hs; cases hs
  | cons x rest ih =>
    intro td td2 h s hs sc hsc hov hvm
    unfold subnet_loop at h
    cases hgc : get_cidr td x with
    | error e => simp only [hgc] at h; cases h
    | ok xcidr =>
      simp only [hgc] at h
      rcases List.mem_cons.mp hs with h1 | h1
      · subst h1
        have hxc : xcidr = sc := by
          rw [hgc] at hsc
          injection hsc
        rw [hxc] at h
        rw [if_pos hov] at h
        cases hda : dict_append td.graphdict vpc s with
        | error e => simp only [hda] at h; cases h
        | ok gd1 =>
          simp only [hda] at h
          rcases dictGet_isSome_of_mem ((dictMem_iff _ _).mp hvm) with ⟨vs, hvs⟩
          have hget1 : dictGet gd1 vpc = some (vs ++ [s]) := by
            rw [dictGet_dict_append hda vpc, if_pos rfl, hvs]
            rfl
          rcases subnet_loop_spec h with ⟨_, _, _, hext, _⟩
          rcases hext vpc _ hget1 with ⟨ex, hex⟩
          rw [hex]
          simp
      · by_cases hov2 : ip_overlaps xcidr vcidr = true
        · rw [if_pos hov2] at h
          cases hda : dict_append td.graphdict vpc x with
          | error e => simp only [hda] at h; cases h
          | ok gd1 =>
            simp only [hda] at h
            apply ih h s h1 sc
            · rw [@get_cidr_meta td { td with graphdict := gd1 } rfl]
              exact hsc
            · exact hov
            · rw [dictMem_iff]
              show vpc ∈ dictKeys gd1
              rw [dict_append_keys hda]
              exact (dictMem_iff _ _).mp hvm
        · rw [if_neg hov2] at h
          exact ih h s h1 sc hsc hov hvm

theorem vpc_loop_spec {subnets : List String} :
    ∀ {vpcs : List String} {td td2 : TfData},
      vpc_loop td subnets vpcs = .ok td2 →
      td2.tf_resources_created = td.tf_resources_created ∧
      td2.meta_data = td.meta_data ∧
      dictKeys td2.graphdict = dictKeys td.graphdict ∧
      gdExtends td.graphdict td2.graphdict ∧
      (∀ p ∈ td2.graphdict, ∀ e ∈ p.2,
        (∃ q ∈ td.graphdict, e ∈ q.2) ∨ e ∈ subnets) := by
  intro vpcs
  induction vpcs with
  | nil =>
    intro td td2 h
    unfold vpc_loop at h
    cases h
    exact ⟨rfl, rfl, rfl, gdExtends_refl _, fun p hp e he => Or.inl ⟨p, hp, he⟩⟩
  | cons v rest ih =>
    intro td td2 h
    unfold vpc_loop at h
    cases hgc : get_cidr td v with
    | error e => simp only [hgc] at h; cases h
    | ok vcidr =>
      simp only [hgc] at h
      cases hsl : subnet_loop td v vcidr subnets with
      | error e => simp only [hsl] at h; cases h
      | ok td1 =>
        simp only [hsl] at h
        rcases subnet_loop_spec hsl with ⟨s1, s2, s3, s4, s5⟩
        rcases ih h with ⟨h1, h2, h3, h4, h5⟩
        refine ⟨by rw [h1, s1], by rw [h2, s2], by rw [h3, s3],
          gdExtends_trans s4 h4, ?_⟩
        intro p hp e he
        rcases h5 p hp e he with ⟨q, hq, hqe⟩ | hsub
        · rcases s5 q hq e hqe with hq2 | hsub2
          · exact Or.inl hq2
          · exact Or.inr hsub2
        · exact Or.inr hsub

theorem vpc_loop_mem {subnets : List String} :
    ∀ {vpcs : List String} {td td2 : TfData},
      vpc_loop td subnets vpcs = .ok td2 →
      ∀ v ∈ vpcs, ∀ s ∈ subnets, ∀ vc sc : IPNet,
      get_cidr td v = .ok vc → get_cidr td s = .ok sc →
      ip_overlaps sc vc = true → dictMem td.graphdict v = true →
      s ∈ (dictGet td2.graphdict v).getD [] := by
  intro vpcs
  induction vpcs with
  | nil => intro td td2 _ v hv; cases hv
  | cons x rest ih =>
    intro td td2 h v hv s hs vc sc hvc hsc hov hvm
    unfold vpc_loop at h
    cases hgc : get_cidr td x with
    | error e => simp only [hgc] at h; cases h
    | ok xcidr =>
      simp only [hgc] at h
      cases hsl : subnet_loop td x xcidr subnets with
      | error e => simp only [hsl] at h; cases h
      | ok td1 =>
        simp only [hsl] at h
        rcases subnet_loop_spec hsl with ⟨_, s2, s3, s4, _⟩
        rcases List.mem_cons.mp hv with h1 | h1
        · subst h1
          have hxc : xcidr = vc := by
            rw [hgc] at hvc
            injection hvc
          rw [hxc] at hsl
          have hmem1 : s ∈ (dictGet td1.graphdict v).getD [] :=
            subnet_loop_mem hsl s hs sc hsc hov hvm
          rcases mem_getD_some hmem1 with ⟨vs, hvs, hsv⟩
          rcases vpc_loop_spec h with ⟨_, _, _, hext, _⟩
          rcases hext v vs hvs with ⟨ex, hex⟩
          rw [hex]
          simp only [Option.getD_some]
          exact List.mem_append_left _ hsv
        · apply ih h v h1 s hs vc sc
          · rw [get_cidr_meta s2]
            exact hvc
          · rw [get_cidr_meta s2]
            exact hsc
          · exact hov
          · rw [dictMem_iff, s3]
            exact (dictMem_iff _ _).mp hvm

theorem add_vpc_spec {td td2 : TfData} (h : add_vpc_implied_relations td = .ok td2) :
    td2.tf_resources_created = td.tf_resources_created ∧
    td2.meta_data = td.meta_data ∧
    dictKeys td2.graphdict = dictKeys td.graphdict ∧
    gdExtends td.graphdict td2.graphdict ∧
    (graph_edges_resolved td.graphdict → graph_edges_resolved td2.graphdict) := by
  unfold add_vpc_implied_relations at h
  by_cases hg : 0 < (vpc_resources td).length ∧ 0 < (subnet_resources td).length
  · rw [if_pos hg] at h
    rcases vpc_loop_spec h with ⟨h1, h2, h3, h4, h5⟩
    refine ⟨h1, h2, h3, h4, ?_⟩
    intro hI p hp e he
    have hext : keysExt td.graphdict td2.graphdict :=
      ⟨[], by rw [h3, List.append_nil]⟩
    rcases h5 p hp e he with ⟨q, hq, hqe⟩ | hsub
    · exact edge_target_resolved_mono hext (hI q hq e hqe)
    · have hek : e ∈ dictKeys td.graphdict := (List.mem_filter.mp hsub).1
      exact Or.inl ((dictMem_iff _ _).mpr (keysExt_mem hext hek))
  · rw [if_neg hg] at h
    cases h
    exact ⟨rfl, rfl, rfl, gdExtends_refl _, fun hg2 => hg2⟩

theorem add_vpc_mem {td td2 : TfData} (h : add_vpc_implied_relations td = .ok td2)
    {v s : String} {vc sc : IPNet}
    (hv : v ∈ vpc_resources td) (hs : s ∈ subnet_resources td)
    (hvc : get_cidr td v = .ok vc) (hsc : get_cidr td s = .ok sc)
    (hov : ip_overlaps sc vc = true) :
    s ∈ (dictGet td2.graphdict v).getD [] := by
  unfold add_vpc_implied_relations at h
  have hg : 0 < (vpc_resources td).length ∧ 0 < (subnet_resources td).length :=
    ⟨List.length_pos.mpr (List.ne_nil_of_mem hv),
     List.length_pos.mpr (List.ne_nil_of_mem hs)⟩
  rw [if_pos hg] at h
  have hvk : v ∈ dictKeys td.graphdict := (List.mem_filter.mp hv).1
  exact vpc_loop_mem h v hv s hs vc sc hvc hsc hov ((dictMem_iff _ _).mpr hvk)

/-- Claim C1 (amended): after `tf_makegraph` succeeds, every source of an
edge is a key of the adjacency mapping, and every edge target is either a
key of the final mapping or an ambiguous raw tail label extended by at
least two node keys — the raw label is appended (normal branch) or freshly
created as a key (reverse branch) when the tail label prefix-matches more
than one node key without being an exact key, so endpoints are not always
pre-existing node keys. -/
theorem C1_edge_endpoints :
    ∀ (REV : List String) (td td2 : TfData), tf_makegraph REV td = .ok td2 →
      ∀ p ∈ td2.graphdict, ∀ e ∈ p.2,
        dictMem td2.graphdict e = true ∨
        2 ≤ ((dictKeys td2.graphdict).filter (fun k => str_startsWith k e)).length := by
  intro REV td td2 h p hp e he
  unfold tf_makegraph at h
  cases hpre : tf_makegraph_pre REV td with
  | error e2 => simp only [hpre] at h; cases h
  | ok td3 =>
    simp only [hpre] at h
    unfold validate_domain at h
    by_cases hz : (list_of_dictkeys_containing td3.graphdict "aws_").length = 0
    · rw [if_pos hz] at h; cases h
    · rw [if_neg hz] at h
      injection h with h1
      subst h1
      unfold tf_makegraph_pre at hpre
      cases hsg : setup_graph td with
      | error e2 => simp only [hsg] at hpre; cases hpre
      | ok td1 =>
        simp only [hsg] at hpre
        cases hre : resolve_edges_stage REV td1 with
        | error e2 => simp only [hre] at hpre; cases hpre
        | ok td1b =>
          simp only [hre] at hpre
          have hI1 : graph_edges_resolved td1.graphdict := by
            intro q hq e2 he2
            rw [(setup_graph_spec hsg).2.2.2.2.2 q hq] at he2
            cases he2
          rcases resolve_edges_spec hre with ⟨_, _, _, hi2⟩
          rcases add_vpc_spec hpre with ⟨_, _, _, _, hi3⟩
          exact hi3 (hi2 hI1) p hp e he

/-- Witness for C1 (amended) on a run whose one edge resolves exactly. -/
theorem C1_edge_endpoints_witness :
    tf_makegraph [] w1td = .ok w1out ∧
    (dictMem w1out.graphdict "aws_eip.one" = true ∨
      2 ≤ ((dictKeys w1out.graphdict).filter
        (fun k => str_startsWith k "aws_eip.one")).length) :=
  ⟨by decide, C1_edge_endpoints [] w1td w1out (by decide)
    ("aws_instance.srv", ["aws_eip.one"]) (by decide) "aws_eip.one" (by decide)⟩

/-- Counterexample to C1 as stated: with a two-instance count address, the
raw tail label `aws_eip.ip` is inserted as an edge target of
`aws_instance.web` although it is not a key of the adjacency mapping. -/
theorem C1_edge_endpoints_cex :
    tf_makegraph [] c1td = .ok c1out ∧
    "aws_eip.ip" ∈ (dictGet c1out.graphdict "aws_instance.web").getD [] ∧
    dictMem c1out.graphdict "aws_eip.ip" = false := by decide

/-- Claim C2 (amended): for a low-level edge whose tail label is not an
exact node key and prefix-matches at least two node keys, the normal-branch
resolver does NOT drop the edge: it continues without aborting and appends
the raw tail label itself to the head node's connection list (the key set
unchanged). -/
theorem C2_ambiguous_edge :
    ∀ (REV gvt : List String) (node_id : Nat) (gd : Graphdict) (node : String)
      (c : GEdge) (tl : String),
      node_id = c.head →
      gvt.get? c.tail = some tl →
      dictMem gd tl = false →
      2 ≤ ((dictKeys gd).filter (fun k => str_startsWith k tl)).length →
      dictMem gd node = true →
      REV.contains (py_split_head tl '.') = false →
      ∃ gd2, conn_step REV gvt node_id gd node c = .ok (gd2, node) ∧
        dictKeys gd2 = dictKeys gd ∧
        (∀ vs, dictGet gd node = some vs → dictGet gd2 node = some (vs ++ [tl])) := by
  intro REV gvt node_id gd node c tl hh hget htl hlen hmem hrev
  have hmc : 0 < ((dictKeys gd).filter (fun k => str_startsWith k tl)).length := by
    omega
  have hpc : pick_conn gd tl ((dictKeys gd).filter (fun k => str_startsWith k tl)) = tl := by
    unfold pick_conn
    rw [if_neg]
    intro hcond
    omega
  refine ⟨gd.map (fun p => if p.1 = node then (p.1, p.2 ++ [tl]) else p), ?_, ?_, ?_⟩
  · unfold conn_step
    rw [if_pos hh]
    simp only [hget]
    rw [if_pos hmc, pick_node_of_mem hmem, hpc]
    rw [if_neg (fun hx : REV.contains (py_split_head tl '.') = true => by
      rw [hrev] at hx; cases hx)]
    rw [dict_append_isOk tl hmem]
  · exact dictKeys_map_keep (fun p => by by_cases hp : p.1 = node <;> simp [hp])
  · intro vs hvs
    have h0 : dictGet (gd.map (fun p => if p.1 = node then (p.1, p.2 ++ [tl]) else p)) node
        = if node = node then (dictGet gd node).map (fun vs2 => vs2 ++ [tl])
          else dictGet gd node :=
      dictGet_mapAt gd node (fun vs2 => vs2 ++ [tl]) node
    rw [h0, if_pos rfl, hvs]
    rfl

/-- Witness for C2 (amended) at a concrete ambiguous connection. -/
theorem C2_ambiguous_edge_witness :
    ∃ gd2, conn_step [] ["aws_lb.w", "aws_instance.a"] 0
        [("aws_lb.w", []), ("aws_instance.a~1", []), ("aws_instance.a~2", [])]
        "aws_lb.w" ⟨0, 1⟩ = .ok (gd2, "aws_lb.w") ∧
      dictKeys gd2 = dictKeys [("aws_lb.w", ([] : List String)),
        ("aws_instance.a~1", []), ("aws_instance.a~2", [])] ∧
      (∀ vs, dictGet [("aws_lb.w", ([] : List String)), ("aws_instance.a~1", []),
          ("aws_instance.a~2", [])] "aws_lb.w" = some vs →
        dictGet gd2 "aws_lb.w" = some (vs ++ ["aws_instance.a"])) :=
  C2_ambiguous_edge [] ["aws_lb.w", "aws_instance.a"] 0
    [("aws_lb.w", []), ("aws_instance.a~1", []), ("aws_instance.a~2", [])]
    "aws_lb.w" ⟨0, 1⟩ "aws_instance.a"
    (by decide) (by decide) (by decide) (by decide) (by decide) (by decide)

/-- Counterexample to C2 as stated: the ambiguous tail label
`aws_instance.app` (two count instances, no exact key) is not dropped — the
edge is inserted with the raw label as target, and construction finishes
normally. -/
theorem C2_ambiguous_edge_cex :
    tf_makegraph [] c2td = .ok c2out ∧
    dictGet c2out.graphdict "aws_lb.web" = some ["aws_instance.app"] ∧
    dictMem c2out.graphdict "aws_instance.app" = false := by decide

/-- Claim C7 (amended): when a node's stripped base label is not in the
gvid table and is still missing after bracket/number normalization, the
resolver aborts graph construction with a `ValueError` (Python
`list.index`), whose message names the normalized base label — not
necessarily the full (suffixed) node key. -/
theorem C7_label_lookup_error :
    ∀ (REV gvt : List String) (edges : List GEdge) (gd : Graphdict)
      (node : String) (rest : List String),
      gvt.findIdx? (fun s2 => s2 == py_split_head node '~') = Option.none →
      gvt.findIdx? (fun s2 =>
        s2 == remove_brackets_and_numbers (py_split_head node '~')) = Option.none →
      node_loop REV gvt edges gd (node :: rest) =
        .error (.valueErr (remove_brackets_and_numbers (py_split_head node '~') ++
          " is not in list")) := by
  intro REV gvt edges gd node rest h1 h2
  unfold node_loop lookup_node_id
  simp only [h1, h2]

/-- Witness for C7 (amended) at a concrete failing lookup. -/
theorem C7_label_lookup_error_witness :
    node_loop [] ["other.label"] [] [] ["aws_q.z"] =
      .error (.valueErr (remove_brackets_and_numbers (py_split_head "aws_q.z" '~') ++
        " is not in list")) :=
  C7_label_lookup_error [] ["other.label"] [] [] "aws_q.z" []
    (by decide) (by decide)

/-- Counterexample to C7 as stated: for the count-suffixed key `aws_db.x~1`
the surfaced `ValueError` message names only the stripped base label
`aws_db.x`; the offending node key itself does not occur in it. -/
theorem C7_label_lookup_cex :
    tf_makegraph [] c7td = .error (.valueErr "aws_db.x is not in list") ∧
    strContains "aws_db.x is not in list" "aws_db.x~1" = false := by decide

/-- Claim C8: the Implied-Relation Inferencer never removes an existing
edge (every old connection list survives as a prefix), adds an edge
`vpc -> subnet` for every vpc/subnet pair with overlapping CIDR ranges
regardless of existing edges, and on the spec's concrete example connects
the `10.0.0.0/16` vpc to the `10.0.1.0/24` subnet but not to the
`192.168.0.0/24` one. -/
theorem C8_implied_relations :
    (∀ td td2 : TfData, add_vpc_implied_relations td = .ok td2 →
      ∀ k vs, dictGet td.graphdict k = some vs →
        ∃ ex, dictGet td2.graphdict k = some (vs ++ ex)) ∧
    (∀ (td td2 : TfData) (v s : String) (vc sc : IPNet),
      add_vpc_implied_relations td = .ok td2 →
      v ∈ vpc_resources td → s ∈ subnet_resources td →
      get_cidr td v = .ok vc → get_cidr td s = .ok sc →
      ip_overlaps sc vc = true →
      s ∈ (dictGet td2.graphdict v).getD []) ∧
    (add_vpc_implied_relations exTd8 = .ok exTd8r ∧
      dictGet exTd8r.graphdict "aws_vpc.main" = some ["aws_subnet.a"]) := by
  refine ⟨?_, ?_, by decide⟩
  · intro td td2 h k vs hk
    exact (add_vpc_spec h).2.2.2.1 k vs hk
  · intro td td2 v s vc sc h hv hs hvc hsc hov
    exact add_vpc_mem h hv hs hvc hsc hov

/-- Witness for C8 at the spec's concrete container/subdivision example. -/
theorem C8_implied_relations_witness :
    "aws_subnet.a" ∈ (dictGet exTd8r.graphdict "aws_vpc.main").getD [] :=
  C8_implied_relations.2.1 exTd8 exTd8r "aws_vpc.main" "aws_subnet.a"
    ⟨167772160, 167837695⟩ ⟨167772416, 167772671⟩
    (by decide) (by decide) (by decide) (by decide) (by decide) (by decide)
